import Mathlib

/-!
Shallow embedding of the export/download pipeline (`DownloadController`) and the
progress deadline check (`ProgressController`) of the e-learning platform, for
verification of its natural-language specification.

Paths are modelled as lists of segments (an absolute POSIX path split at `/`),
so that Node's `path.join`/`path.resolve` normalisation (`.`/`..`/empty-segment
handling) and `path.dirname` become explicit list operations.  JavaScript
numbers used for file sizes are modelled as rationals, since `file.size / 1024`
is real (not integer) division.  Database lookups (`findOne`/`findById`) are
modelled as association-list lookups; throwing an error is modelled with
`Except`, and a mongoose `null` dereference (a lookup without `orFail` followed
by a property access) is modelled as the distinguished error `internal`.
Filesystem side effects (creating the output stream, adding a file to the zip
archive, rendering html to PDF and appending it) are recorded as an explicit
trace of `Effect`s, in program order; an error result carries the effects that
happened before the throw.
-/

namespace Lms

/-- A path segment: the characters of one component of a POSIX path. -/
abbrev Seg := List Char

/-- An absolute POSIX path in canonical form: its list of segments from the root. -/
abbrev AbsPath := List Seg

/-- Split a character list at every `/`, as Node does when normalising a path. -/
def splitSlash : List Char → List (List Char)
  | [] => [[]]
  | c :: rest =>
    if c = '/' then [] :: splitSlash rest
    else
      match splitSlash rest with
      | [] => [[c]]
      | s :: ss => (c :: s) :: ss

/-- One step of Node path normalisation: empty segments and `.` vanish,
`..` removes the previous segment (clamped at the root), anything else is kept. -/
def normStep (stack : AbsPath) (seg : Seg) : AbsPath :=
  if seg = [] then stack
  else if seg = ['.'] then stack
  else if seg = ['.', '.'] then stack.dropLast
  else stack ++ [seg]

/-- `path.join(base, rel)` for a canonical absolute `base` and a relative
string `rel`: split `rel` at `/` and fold the normalisation over it. -/
def joinPath (base : AbsPath) (rel : String) : AbsPath :=
  (splitSlash rel.data).foldl normStep base

/-- Render a canonical absolute path back to its string form. -/
def renderPath (p : AbsPath) : String :=
  "/" ++ String.intercalate "/" (p.map fun s => String.mk s)

/-- The errors the controllers can throw.  `internal` stands for a JavaScript
`TypeError` caused by dereferencing a `null` result of a lookup done without
`orFail`. -/
inductive DlError
  | badRequest
  | forbidden
  | notFound
  | internal
  deriving DecidableEq, Repr

/-- `config.maxFileSize` (KiB). -/
def maxFileSize : ℚ := 51200

/-- `config.maxZipSize` (KiB). -/
def maxZipSize : ℚ := 204800

/-- A `File` document from the media manager (name, link, size in bytes). -/
structure FileDoc where
  name : String
  link : String
  size : ℚ
  deriving DecidableEq, Repr

/-- A unit document.  `t` is the mongoose discriminator `__t`; the three html
fields stand for the unit's `toHtmlForIndividualPDF`, `toHtmlForSinglePDF` and
`toHtmlForSinglePDFSolutions` renderings; `course` is `_course`. -/
structure UnitDoc where
  t : String
  name : String
  files : List FileDoc
  htmlIndividual : String
  htmlSingle : String
  htmlSolutions : String
  deadline : Option Int
  course : String
  deriving DecidableEq, Repr

instance : Inhabited UnitDoc := ⟨⟨"", "", [], "", "", "", none, ""⟩⟩

/-- A lecture document. -/
structure LectureDoc where
  name : String
  deriving DecidableEq, Repr

instance : Inhabited LectureDoc := ⟨⟨""⟩⟩

/-- A course document.
`canView` is Modelled from the spec: the course model's
`checkPrivileges(user).userCanViewCourse` used by the `ProgressController` is
not part of the sources; it is modelled as the abstract set of user ids that
may view the course. -/
structure CourseDoc where
  name : String
  courseAdmin : String
  students : List String
  teachers : List String
  canView : List String
  deriving DecidableEq, Repr

/-- The current user, as the controllers see it. -/
structure IUserM where
  id : String
  role : String
  deriving DecidableEq, Repr

/-- A reference to a unit inside a download request.  In `calcPackage` the
`files` entries are used as indices into the unit's attachment list, and in the
archive-building loops as `File` ids; both usages are numbers. -/
structure UnitRef where
  unitId : String
  files : List Nat
  deriving DecidableEq, Repr

/-- A reference to a lecture inside a download request. -/
structure LectureRef where
  lectureId : String
  units : List UnitRef
  deriving DecidableEq, Repr

/-- The body of a download request (`IDownload`). -/
structure IDownload where
  courseName : String
  lectures : List LectureRef
  deriving DecidableEq, Repr

/-- The document store: association lists standing for the mongoose
collections. -/
structure DB where
  units : List (String × UnitDoc)
  lectures : List (String × LectureDoc)
  files : List (Nat × FileDoc)
  courses : List (String × CourseDoc)
  deriving Repr

/-- `findOne({_id: k})` / `findById(k)` on an association list. -/
def lookupKey {κ α : Type} [DecidableEq κ] (k : κ) : List (κ × α) → Option α
  | [] => none
  | p :: rest => if k = p.1 then some p.2 else lookupKey k rest

/-- The result of `calcPackage`. -/
structure PackResult where
  totalSize : ℚ
  tooLargeFiles : List String
  deriving DecidableEq, Repr

/-- The `forEach((file, index) => ...)` body of `calcPackage` over one file
unit's attachments, threading the running total and the too-large list. -/
def calcFiles (sel : List Nat) : Nat → List FileDoc → ℚ × List String → ℚ × List String
  | _, [], acc => acc
  | i, f :: rest, (tot, large) =>
    if sel.contains i then
      calcFiles sel (i + 1) rest
        (tot + f.size / 1024,
         if maxFileSize < f.size / 1024 then large ++ [f.link] else large)
    else
      calcFiles sel (i + 1) rest (tot, large)

/-- The inner unit loop of `calcPackage`. -/
def calcUnits (db : DB) : List UnitRef → ℚ × List String → Except DlError (ℚ × List String)
  | [], acc => .ok acc
  | u :: rest, acc =>
    match lookupKey u.unitId db.units with
    | none => .error .notFound
    | some lu =>
      calcUnits db rest (if lu.t = "file" then calcFiles u.files 0 lu.files acc else acc)

/-- The outer lecture loop of `calcPackage`. -/
def calcLectures (db : DB) : List LectureRef → ℚ × List String → Except DlError (ℚ × List String)
  | [], acc => .ok acc
  | lec :: rest, acc =>
    match calcUnits db lec.units acc with
    | .error e => .error e
    | .ok acc1 => calcLectures db rest acc1

/-- `calcPackage`: total selected size (KiB) and links of the selected files
exceeding `config.maxFileSize`, failing with `NotFoundError` on a missing
unit. -/
def calcPackage (db : DB) (pack : IDownload) : Except DlError PackResult :=
  match calcLectures db pack.lectures (0, []) with
  | .error e => .error e
  | .ok acc => .ok ⟨acc.1, acc.2⟩

/-- The character class kept by `replaceCharInFilename` (`[a-zA-Z0-9 -]`). -/
def allowedChar (c : Char) : Bool :=
  ('a' ≤ c && c ≤ 'z') || ('A' ≤ c && c ≤ 'Z') || ('0' ≤ c && c ≤ '9') || c = ' ' || c = '-'

/-- The final global replacement of `replaceCharInFilename`: collapse every
run of dashes to a single dash. -/
def collapseDashes : List Char → List Char
  | [] => []
  | c :: rest =>
    match collapseDashes rest with
    | [] => [c]
    | d :: ds => if c = '-' && d = '-' then d :: ds else c :: d :: ds

/-- `replaceCharInFilename`: drop special characters, replace spaces by dashes,
collapse dash runs. -/
def replaceCharInFilename (s : String) : String :=
  String.mk (collapseDashes ((s.data.filter allowedChar).map fun c => if c = ' ' then '-' else c))

/-- `userCanExportCourse`: admin, course admin, student or teacher of the
course. -/
def userCanExportCourse (course : CourseDoc) (user : IUserM) : Bool :=
  user.role == "admin" || user.id == course.courseAdmin ||
    course.students.contains user.id || course.teachers.contains user.id

/-- The zip name `'download_' + id + '.zip'` as a character list. -/
def zipSegOf (id : String) : Seg :=
  ("download_" ++ id ++ ".zip").data

/-- The path `path.join(path.resolve(config.tmpFileCacheFolder), 'download_' + id + '.zip')`. -/
def dlPath (folder : AbsPath) (id : String) : AbsPath :=
  joinPath folder ("download_" ++ id ++ ".zip")

/-- `getArchivedFile`: reject ids whose joined path does not have the cache
folder as its `dirname`, then check existence, then serve the file.  `fsys` is
the set of existing files. -/
def getArchivedFile (folder : AbsPath) (fsys : List AbsPath) (id : String) :
    Except DlError AbsPath :=
  let filePath := dlPath folder id
  if filePath.dropLast ≠ folder then .error .forbidden
  else if filePath ∈ fsys then .ok filePath
  else .error .notFound

/-- A hexadecimal digit as produced by `randomBytes(16).toString('hex')`. -/
def isHexChar (c : Char) : Bool :=
  c.isDigit || ('a' ≤ c && c ≤ 'f')

/-- The shape of a hash returned by `createFileHash`: 32 lowercase hex
characters. -/
def IsHexHash (s : String) : Prop :=
  s.data.length = 32 ∧ ∀ c ∈ s.data, isHexChar c = true

instance (s : String) : Decidable (IsHexHash s) := by
  unfold IsHexHash; infer_instance

/-- A file of the cache folder, with its name and `ctimeMs`. -/
structure CacheFile where
  name : String
  ctimeMs : Int
  deriving DecidableEq, Repr

/-- A word character of the regex class `\w`. -/
def isWordChar (c : Char) : Bool :=
  ('a' ≤ c && c ≤ 'z') || ('A' ≤ c && c ≤ 'Z') || ('0' ≤ c && c ≤ '9') || c = '_'

/-- Whether `p` is a prefix of `l`. -/
def hasPref : List Char → List Char → Bool
  | [], _ => true
  | _ :: _, [] => false
  | x :: xs, y :: ys => x == y && hasPref xs ys

/-- A character matched by the unescaped `.` of a JavaScript regex (no `s`
flag): anything except the line terminators `\n`, `\r`, U+2028 and U+2029. -/
def isDotChar (c : Char) : Bool :=
  !(c = '\n' || c = '\r' || c = '\u2028' || c = '\u2029')

/-- After `download_` and at least one word character: try to read one
`.`-matched character followed by `zip`, or consume one more word
character. -/
def afterWord : List Char → Bool
  | [] => false
  | c :: rest => (isDotChar c && hasPref ['z', 'i', 'p'] rest) || (isWordChar c && afterWord rest)

/-- Match `(\w+).zip` (with `.` matching any character) at the head of the
list. -/
def wordDotZip : List Char → Bool
  | [] => false
  | c :: rest => isWordChar c && afterWord rest

/-- `/download_(\w+).zip/.test(s)`: the unanchored regex test used by the cache
sweep — some position of the string starts `download_`, then one or more word
characters, then any character, then `zip`. -/
def regexTest : List Char → Bool
  | [] => false
  | x :: rest =>
    (hasPref "download_".data (x :: rest) && wordDotZip ((x :: rest).drop 9)) || regexTest rest

/-- `cleanupCache`: walk the cache folder and unlink every file whose name
passes the regex test and whose `ctimeMs` is before `now - 3600 * 1000`;
returns the files that remain. -/
def cleanupCache (now : Int) : List CacheFile → List CacheFile
  | [] => []
  | f :: rest =>
    if regexTest f.name.data = false then f :: cleanupCache now rest
    else if now - 3600 * 1000 ≤ f.ctimeMs then f :: cleanupCache now rest
    else cleanupCache now rest

/-- The declarative reading of the sweep's pattern: the name contains
`download_`, then a nonempty run of word characters, then one character that
is not a line terminator, then `zip`. -/
def NameMatch (l : List Char) : Prop :=
  ∃ a w c b, l = a ++ "download_".data ++ w ++ c :: "zip".data ++ b ∧
    w ≠ [] ∧ (∀ x ∈ w, isWordChar x = true) ∧ isDotChar c = true

/-- One recorded filesystem/archive side effect of an export endpoint. -/
inductive Effect
  | createStream (p : AbsPath)
  | addFile (src : String) (entryName : String)
  | appendPdf (html : String) (entryName : String)
  deriving DecidableEq, Repr

instance {ε α : Type} [DecidableEq ε] [DecidableEq α] : DecidableEq (Except ε α) := fun a b =>
  match a, b with
  | .ok x, .ok y => if h : x = y then .isTrue (by simp [h]) else .isFalse (by simp [h])
  | .error x, .error y => if h : x = y then .isTrue (by simp [h]) else .isFalse (by simp [h])
  | .ok _, .error _ => .isFalse (by simp)
  | .error _, .ok _ => .isFalse (by simp)

/-- The outcome of an export endpoint: the ordered effect trace and either the
returned hash or the thrown error. -/
structure EndpointOut where
  effects : List Effect
  result : Except DlError String
  deriving DecidableEq, Repr

/-- The html head used by `postDownloadRequestPDFIndividual`, with the
markdown css spliced in before `</style>`. -/
def indivHtmlHead (css : String) : String :=
  "<!DOCTYPE html>\n" ++
  "<html>\n" ++
  "  <head>" ++
  "     <style>" ++
  "       #pageHeader \x7btext-align: center;border-bottom: 1px solid;padding-bottom: 5px;\x7d" ++
  "       #pageFooter \x7btext-align: center;border-top: 1px solid;padding-top: 5px;\x7d" ++
  "       html,body \x7bfont-family: \x27Helvetica\x27, \x27Arial\x27, sans-serif; font-size: 12px; line-height: 1.5;\x7d" ++
  "       .codeBox \x7bborder: 1px solid grey; font-family: Monaco,Menlo,source-code-pro,monospace; padding: 10px\x7d" ++
  "       #firstPage \x7bpage-break-after: always;\x7d" ++
  "       .bottomBoxWrapper \x7bheight:800px; position: relative\x7d" ++
  "       .bottomBox \x7bposition: absolute; bottom: 0;\x7d" ++ css ++
  "     </style>" ++
  "  </head>"

/-- The html head (with opened body) used by `postDownloadRequestPDFSingle`. -/
def singleHtmlHead (css : String) : String :=
  "<!DOCTYPE html>\n" ++
  "<html>\n" ++
  "  <head>" ++
  "     <style>" ++
  "       #pageHeader \x7btext-align: center;border-bottom: 1px solid;padding-bottom: 5px;\x7d" ++
  "       #pageFooter \x7btext-align: center;border-top: 1px solid;padding-top: 5px;\x7d" ++
  "       html, body \x7bfont-family: \x27Helvetica\x27, \x27Arial\x27, sans-serif; font-size: 12px; line-height: 1.5;\x7d" ++
  "       .codeBox \x7bborder: 1px solid grey; font-family: Monaco,Menlo,source-code-pro,monospace; padding: 10px\x7d" ++
  "       #firstPage \x7bpage-break-after: always;\x7d" ++
  "       #nextPage \x7bpage-break-before: always;\x7d" ++
  "       .bottomBoxWrapper \x7bheight:800px; position: relative\x7d" ++
  "       .bottomBox \x7bposition: absolute; bottom: 0;\x7d" ++ css ++
  "     </style>" ++
  "  </head>" ++
  "  <body>" ++
  "  "

/-- The opening of the solutions section of the single PDF. -/
def solutionsHead : String :=
  "<div id=\"nextPage\"><h2><u>Solutions</u></h2>"

/-- The zip entry name used for an attachment of a file unit. -/
def fileEntryName (lecCounter : Nat) (lcName : String) (unitCounter : Nat) (fname : String) : String :=
  toString lecCounter ++ "_" ++ lcName ++ "/" ++ toString unitCounter ++ "_" ++ fname

/-- The zip entry name used for a rendered unit PDF. -/
def pdfEntryName (lecCounter : Nat) (lcName : String) (unitCounter : Nat) (uname : String) : String :=
  toString lecCounter ++ "_" ++ lcName ++ "/" ++ toString unitCounter ++ "_" ++ replaceCharInFilename uname ++ ".pdf"

/-- The `for (const fileId of unit.files)` loop of the individual endpoint:
each attachment is archived from `'uploads/' + file.link`; a missing `File`
document is a `null` dereference. -/
def indivFileEffects (db : DB) (lecCounter : Nat) (lcName : String) (unitCounter : Nat) :
    List Nat → List Effect × Option DlError
  | [] => ([], none)
  | fid :: rest =>
    match lookupKey fid db.files with
    | none => ([], some .internal)
    | some f =>
      let r := indivFileEffects db lecCounter lcName unitCounter rest
      (Effect.addFile ("uploads/" ++ f.link) (fileEntryName lecCounter lcName unitCounter f.name) :: r.1,
       r.2)

/-- The unit loop of the individual endpoint: file units contribute their
attachments unrendered, every other unit is rendered to a PDF and appended. -/
def indivUnits (db : DB) (css : String) (lecCounter : Nat) (lcName : String) :
    Nat → List UnitRef → List Effect × Option DlError
  | _, [] => ([], none)
  | unitCounter, u :: rest =>
    match lookupKey u.unitId db.units with
    | none => ([], some .notFound)
    | some lu =>
      let r :=
        if lu.t == "file" then
          indivFileEffects db lecCounter lcName unitCounter u.files
        else
          ([Effect.appendPdf (indivHtmlHead css ++ lu.htmlIndividual ++ "</html>")
              (pdfEntryName lecCounter lcName unitCounter lu.name)], none)
      match r.2 with
      | some e => (r.1, some e)
      | none =>
        let r2 := indivUnits db css lecCounter lcName (unitCounter + 1) rest
        (r.1 ++ r2.1, r2.2)

/-- The lecture loop of the individual endpoint; a missing lecture is a `null`
dereference of `localLecture.name`. -/
def indivLectures (db : DB) (css : String) :
    Nat → List LectureRef → List Effect × Option DlError
  | _, [] => ([], none)
  | lecCounter, lec :: rest =>
    match lookupKey lec.lectureId db.lectures with
    | none => ([], some .internal)
    | some ld =>
      let r := indivUnits db css lecCounter (replaceCharInFilename ld.name) 1 lec.units
      match r.2 with
      | some e => (r.1, some e)
      | none =>
        let r2 := indivLectures db css (lecCounter + 1) rest
        (r.1 ++ r2.1, r2.2)

/-- `postDownloadRequestPDFIndividual`: validation, course lookup,
authorisation, size check, then on success the output stream is opened and the
archive entries are produced in request order. -/
def pdfIndividual (folder : AbsPath) (db : DB) (user : IUserM) (data : IDownload)
    (hash css : String) : EndpointOut :=
  if data.lectures.length = 0 then ⟨[], .error .badRequest⟩
  else
    match lookupKey data.courseName db.courses with
    | none => ⟨[], .error .notFound⟩
    | some course =>
      if userCanExportCourse course user = false then ⟨[], .error .forbidden⟩
      else
        match calcPackage db data with
        | .error e => ⟨[], .error e⟩
        | .ok s =>
          if maxZipSize < s.totalSize ∨ s.tooLargeFiles ≠ [] then ⟨[], .error .badRequest⟩
          else
            let filePath := dlPath folder hash
            let r := indivLectures db css 1 data.lectures
            match r.2 with
            | some e => ⟨Effect.createStream filePath :: r.1, .error e⟩
            | none => ⟨Effect.createStream filePath :: r.1, .ok hash⟩

/-- The accumulator of the single-PDF loop: effect trace, the body html, the
solutions html and the `firstSol` flag. -/
structure SingleAcc where
  effects : List Effect
  html : String
  solutions : String
  firstSol : Bool
  deriving DecidableEq, Repr

/-- The attachment loop of the single endpoint: archived from
`path.join(config.uploadFolder, file.link)`. -/
def singleFileEffects (db : DB) (uploadFolder : AbsPath) (lecCounter : Nat) (lcName : String)
    (unitCounter : Nat) : List Nat → List Effect × Option DlError
  | [] => ([], none)
  | fid :: rest =>
    match lookupKey fid db.files with
    | none => ([], some .internal)
    | some f =>
      let r := singleFileEffects db uploadFolder lecCounter lcName unitCounter rest
      (Effect.addFile (renderPath (joinPath uploadFolder f.link))
          (fileEntryName lecCounter lcName unitCounter f.name) :: r.1,
       r.2)

/-- Whether a unit contributes a grouped solutions block (`code-kata` or
`task`). -/
def isSolutionUnit (lu : UnitDoc) : Bool :=
  lu.t == "code-kata" || lu.t == "task"

/-- The unit loop of the single endpoint, mirroring the interleaved updates of
the archive, the body html, the solutions html, `firstSol`, `unitCounter` and
`solCounter`. -/
def singleUnits (db : DB) (uploadFolder : AbsPath) (lecName lcName : String) (lecCounter : Nat) :
    Nat → Nat → SingleAcc → List UnitRef → SingleAcc × Option DlError
  | _, _, acc, [] => (acc, none)
  | unitCounter, solCounter, acc, u :: rest =>
    match lookupKey u.unitId db.units with
    | none => (acc, some .notFound)
    | some lu =>
      if lu.t == "file" then
        let r := singleFileEffects db uploadFolder lecCounter lcName unitCounter u.files
        match r.2 with
        | some e => (⟨acc.effects ++ r.1, acc.html, acc.solutions, acc.firstSol⟩, some e)
        | none =>
          singleUnits db uploadFolder lecName lcName lecCounter (unitCounter + 1) solCounter
            ⟨acc.effects ++ r.1, acc.html, acc.solutions, acc.firstSol⟩ rest
      else
        let h1 :=
          if isSolutionUnit lu && decide (1 < lecCounter) && decide (1 < unitCounter) then
            acc.html ++ "<div id=\"nextPage\" >" ++ lu.htmlSingle ++ "</div>"
          else
            acc.html ++ lu.htmlSingle
        let s1 :=
          if isSolutionUnit lu then
            acc.solutions ++
              (if acc.firstSol = false && solCounter == 1 then
                "<div><h2>Lecture: " ++ lecName ++ "</h2>"
               else if solCounter == 1 then
                "<div id=\"nextPage\" ><h2>Lecture: " ++ lecName ++ "</h2>"
               else
                "<div id=\"nextPage\" >") ++ lu.htmlSolutions ++ "</div>"
          else
            acc.solutions ++ lu.htmlSolutions
        let f1 :=
          if isSolutionUnit lu then
            (if acc.firstSol = false && solCounter == 1 then true else acc.firstSol)
          else acc.firstSol
        singleUnits db uploadFolder lecName lcName lecCounter (unitCounter + 1)
          (if isSolutionUnit lu then solCounter + 1 else solCounter)
          ⟨acc.effects, h1, s1, f1⟩ rest

/-- The lecture loop of the single endpoint: opens the lecture's heading div,
runs the unit loop, closes the div. -/
def singleLectures (db : DB) (uploadFolder : AbsPath) :
    Nat → SingleAcc → List LectureRef → SingleAcc × Option DlError
  | _, acc, [] => (acc, none)
  | lecCounter, acc, lec :: rest =>
    match lookupKey lec.lectureId db.lectures with
    | none => (acc, some .internal)
    | some ld =>
      let r :=
        singleUnits db uploadFolder ld.name (replaceCharInFilename ld.name) lecCounter 1 1
          ⟨acc.effects,
           acc.html ++
             (if 1 < lecCounter then "<div id=\"nextPage\" ><h2>Lecture: " ++ ld.name ++ "</h2>"
              else "<div><h2>Lecture: " ++ ld.name ++ "</h2>"),
           acc.solutions, acc.firstSol⟩ lec.units
      match r.2 with
      | some e => (r.1, some e)
      | none =>
        singleLectures db uploadFolder (lecCounter + 1)
          ⟨(r.1).effects, (r.1).html ++ "</div>", (r.1).solutions, (r.1).firstSol⟩ rest

/-- `postDownloadRequestPDFSingle`: same validation pipeline, then the whole
course is rendered into one PDF whose body is followed by the accumulated
solutions section, appended to the archive as `<sanitizedCourseName>.pdf`. -/
def pdfSingle (folder uploadFolder : AbsPath) (db : DB) (user : IUserM) (data : IDownload)
    (hash css : String) : EndpointOut :=
  if data.lectures.length = 0 then ⟨[], .error .badRequest⟩
  else
    match lookupKey data.courseName db.courses with
    | none => ⟨[], .error .notFound⟩
    | some course =>
      if userCanExportCourse course user = false then ⟨[], .error .forbidden⟩
      else
        match calcPackage db data with
        | .error e => ⟨[], .error e⟩
        | .ok s =>
          if maxZipSize < s.totalSize ∨ s.tooLargeFiles ≠ [] then ⟨[], .error .badRequest⟩
          else
            let filePath := dlPath folder hash
            let acc0 : SingleAcc := ⟨[Effect.createStream filePath], singleHtmlHead css, solutionsHead, false⟩
            let r := singleLectures db uploadFolder 1 acc0 data.lectures
            match r.2 with
            | some e => ⟨(r.1).effects, .error e⟩
            | none =>
              ⟨(r.1).effects ++
                  [Effect.appendPdf ((r.1).html ++ (r.1).solutions ++ "</div></body></html>")
                    (replaceCharInFilename course.name ++ ".pdf")],
                .ok hash⟩

/-- A write performed on the progress collection. -/
inductive ProgWrite
  | create (user unitId : String)
  | update (user unitId : String)
  deriving DecidableEq, Repr

/-- The outcome of `updateProgress`: the writes performed on the progress
collection and the result. -/
structure ProgOut where
  writes : List ProgWrite
  result : Except DlError Bool
  deriving DecidableEq, Repr

/-- `ProgressController.checkDeadline`: a set deadline strictly in the past is
a `BadRequestError`. -/
def checkDeadline (lu : UnitDoc) (now : Int) : Option DlError :=
  match lu.deadline with
  | some d => if d < now then some .badRequest else none
  | none => none

/-- `ProgressController.updateProgress`: look up unit and course, check view
privileges, check the deadline, then create or update the progress record.
`store` is the set of `(user, unit)` pairs having a progress record. -/
def updateProgress (db : DB) (store : List (String × String)) (now : Int)
    (dataUnit : String) (user : IUserM) : ProgOut :=
  match lookupKey dataUnit db.units with
  | none => ⟨[], .error .internal⟩
  | some lu =>
    match lookupKey lu.course db.courses with
    | none => ⟨[], .error .internal⟩
    | some course =>
      if course.canView.contains user.id = false then ⟨[], .error .forbidden⟩
      else
        match checkDeadline lu now with
        | some e => ⟨[], .error e⟩
        | none =>
          if store.contains (user.id, dataUnit) then
            ⟨[ProgWrite.update user.id dataUnit], .ok true⟩
          else
            ⟨[ProgWrite.create user.id dataUnit], .ok false⟩

instance : Inhabited FileDoc := ⟨⟨"", "", 0⟩⟩

/-- Pair each list element with its index, starting at `i`. -/
def enumFrom {α : Type} (i : Nat) : List α → List (Nat × α)
  | [] => []
  | a :: as => (i, a) :: enumFrom (i + 1) as

/-! Spec-side (declarative) descriptions, to be proved equal to the embedded
code. -/

/-- The files a request selects from one unit: for a file unit, the
attachments whose index appears in the request's `files` list; nothing for any
other unit type or for a missing unit. -/
def selectedOfUnit (db : DB) (u : UnitRef) : List FileDoc :=
  match lookupKey u.unitId db.units with
  | none => []
  | some lu =>
    if lu.t = "file" then ((enumFrom 0 lu.files).filter fun p => u.files.contains p.1).map fun p => p.2
    else []

/-- All files a request selects, in request order. -/
def selectedFiles (db : DB) (pack : IDownload) : List FileDoc :=
  ((pack.lectures.map fun lec => ((lec.units.map (selectedOfUnit db)).flatten)).flatten)

/-- The sum of `size / 1024` over a list of files. -/
def selSizes (fs : List FileDoc) : ℚ :=
  (fs.map fun f => f.size / 1024).sum

/-- The links of the files whose `size / 1024` exceeds `config.maxFileSize`. -/
def largeOf (fs : List FileDoc) : List String :=
  (fs.filter fun f => decide (maxFileSize < f.size / 1024)).map fun f => f.link

/-- Every unit referenced by the request exists. -/
def UnitsExist (db : DB) (pack : IDownload) : Prop :=
  ∀ lec ∈ pack.lectures, ∀ u ∈ lec.units, (lookupKey u.unitId db.units).isSome = true

instance (db : DB) (pack : IDownload) : Decidable (UnitsExist db pack) := by
  unfold UnitsExist; infer_instance

/-- The referenced unit, defaulting on a missing id (only used under an
existence hypothesis). -/
def lookupUnitD (db : DB) (u : UnitRef) : UnitDoc :=
  (lookupKey u.unitId db.units).getD default

/-- The referenced file document, defaulting on a missing id. -/
def lookupFileD (db : DB) (fid : Nat) : FileDoc :=
  (lookupKey fid db.files).getD default

/-- The referenced lecture's name, defaulting on a missing id. -/
def lectureNameD (db : DB) (lec : LectureRef) : String :=
  ((lookupKey lec.lectureId db.lectures).getD default).name

/-- A unit reference is resolvable: the unit exists, and for a file unit all
referenced file documents exist. -/
def unitRefOk (db : DB) (u : UnitRef) : Bool :=
  match lookupKey u.unitId db.units with
  | none => false
  | some lu =>
    if lu.t == "file" then u.files.all fun fid => (lookupKey fid db.files).isSome
    else true

/-- A lecture reference is resolvable: lecture and all its unit references. -/
def lecRefOk (db : DB) (lec : LectureRef) : Bool :=
  (lookupKey lec.lectureId db.lectures).isSome && lec.units.all (unitRefOk db)

/-- All references of a request body are resolvable. -/
def RefsOk (db : DB) (lecs : List LectureRef) : Bool :=
  lecs.all (lecRefOk db)

/-- Declarative description of the archive entries the individual endpoint
produces for the unit at (1-based) position `p.1`: file units contribute their
attachments unrendered under `<lc>_<lcName>/<uc>_<fileName>`, every other unit
one rendered PDF under `<lc>_<lcName>/<uc>_<sanitizedUnitName>.pdf`. -/
def indivUnitSpec (db : DB) (css : String) (lc : Nat) (lcName : String) (p : Nat × UnitRef) :
    List Effect :=
  let lu := lookupUnitD db p.2
  if lu.t == "file" then
    p.2.files.map fun fid =>
      Effect.addFile ("uploads/" ++ (lookupFileD db fid).link)
        (fileEntryName lc lcName p.1 (lookupFileD db fid).name)
  else
    [Effect.appendPdf (indivHtmlHead css ++ lu.htmlIndividual ++ "</html>")
      (pdfEntryName lc lcName p.1 lu.name)]

/-- Declarative description of all archive entries of the individual endpoint,
with lecture and unit counters starting at 1 in request order. -/
def indivSpecEffects (db : DB) (css : String) (lecs : List LectureRef) : List Effect :=
  ((enumFrom 1 lecs).map fun q =>
    ((enumFrom 1 q.2.units).map
      (indivUnitSpec db css q.1 (replaceCharInFilename (lectureNameD db q.2)))).flatten).flatten

/-- Declarative contribution of one unit to the solutions section of the
single PDF.  `fb` says whether an earlier lecture already contributed a
solutions block, `k` counts the code-kata/task units before this one in the
same lecture.  A code-kata/task unit opens its lecture's heading when it is the
first of its lecture, a file unit contributes nothing, any other unit
contributes its bare solutions html. -/
def unitSolContrib (nm : String) (fb : Bool) (k : Nat) (lu : UnitDoc) : String :=
  if isSolutionUnit lu then
    (if k = 0 then
      (if fb then "<div id=\"nextPage\" ><h2>Lecture: " ++ nm ++ "</h2>"
       else "<div><h2>Lecture: " ++ nm ++ "</h2>")
     else "<div id=\"nextPage\" >") ++ lu.htmlSolutions ++ "</div>"
  else if lu.t == "file" then ""
  else lu.htmlSolutions

/-- Declarative solutions contribution of one lecture's units, in request
order. -/
def unitsSolContrib (db : DB) (nm : String) (fb : Bool) : Nat → List UnitRef → String
  | _, [] => ""
  | k, u :: rest =>
    unitSolContrib nm fb k (lookupUnitD db u) ++
      unitsSolContrib db nm fb (if isSolutionUnit (lookupUnitD db u) then k + 1 else k) rest

/-- Whether a lecture has a code-kata/task unit (so contributes a grouped
solutions block). -/
def lecHasSolUnit (db : DB) (lec : LectureRef) : Bool :=
  lec.units.any fun u => isSolutionUnit (lookupUnitD db u)

/-- How many of the referenced units are code-kata/task units. -/
def countSolUnits (db : DB) (us : List UnitRef) : Nat :=
  us.countP fun u => isSolutionUnit (lookupUnitD db u)

/-- Declarative solutions contribution of the whole request, lecture by
lecture in request order. -/
def lecturesSolContrib (db : DB) : Bool → List LectureRef → String
  | _, [] => ""
  | fb, lec :: rest =>
    unitsSolContrib db (lectureNameD db lec) fb 0 lec.units ++
      lecturesSolContrib db (fb || lecHasSolUnit db lec) rest

/-! Small concrete sample data, used to instantiate theorems with hypotheses
at concrete inputs. -/

/-- A sample task unit with a deadline, belonging to course `c1`. -/
def sampleTaskUnit : UnitDoc := ⟨"task", "U", [], "", "", "", some 5, "c1"⟩

/-- A sample course viewable by `alice` only. -/
def sampleCourse : CourseDoc := ⟨"C", "adm", [], [], ["alice"]⟩

/-- A sample store for the progress claim. -/
def sampleProgDB : DB := ⟨[("u1", sampleTaskUnit)], [], [], [("c1", sampleCourse)]⟩

/-- A 300 MiB attachment: 307200 KiB, above both size limits. -/
def bigFile : FileDoc := ⟨"big.bin", "big", 314572800⟩

/-- A small attachment: 2 KiB. -/
def smallFile : FileDoc := ⟨"small.txt", "small", 2048⟩

/-- A sample file unit holding the big attachment. -/
def sampleFileUnit : UnitDoc := ⟨"file", "FU", [bigFile], "", "", "", none, "c1"⟩

/-- A sample file unit holding the small attachment. -/
def smallFileUnit : UnitDoc := ⟨"file", "FU2", [smallFile], "", "", "", none, "c1"⟩

/-- A sample markdown unit. -/
def sampleMdUnit : UnitDoc := ⟨"free-text", "Md Unit", [], "<p>md-i</p>", "<p>md-s</p>", "", none, "c1"⟩

/-- A sample code-kata unit. -/
def sampleKataUnit : UnitDoc := ⟨"code-kata", "Kata Unit", [], "<p>k-i</p>", "<p>k-s</p>", "<p>k-sol</p>", none, "c1"⟩

/-- A sample download store with one oversize file unit. -/
def sampleDlDB : DB :=
  ⟨[("u1", sampleFileUnit)], [("l1", ⟨"Lecture One"⟩)], [(0, bigFile)], [("c1", sampleCourse)]⟩

/-- A sample download store with small content. -/
def smallDlDB : DB :=
  ⟨[("u1", smallFileUnit), ("u2", sampleMdUnit), ("u3", sampleKataUnit)],
   [("l1", ⟨"Lecture One"⟩)], [(0, smallFile)], [("c1", sampleCourse)]⟩

/-- A sample request selecting the single unit of lecture `l1`. -/
def sampleData : IDownload := ⟨"c1", [⟨"l1", [⟨"u1", [0]⟩]⟩]⟩

/-- A sample request selecting the file, markdown and kata units of `l1`. -/
def smallData : IDownload := ⟨"c1", [⟨"l1", [⟨"u1", [0]⟩, ⟨"u2", []⟩, ⟨"u3", []⟩]⟩]⟩

/-- A sample admin user. -/
def adminUser : IUserM := ⟨"root", "admin"⟩

/-! Theorems. -/

/-- C9: a request body with an empty lectures list is rejected with
`BadRequestError` immediately — the outcome is the same for every database,
user and cache folder, and no effect is performed. -/
theorem emptyLectures_badRequest
    (folder uploadFolder : AbsPath) (db : DB) (user : IUserM) (data : IDownload)
    (hash css : String) (h : data.lectures = []) :
    pdfIndividual folder db user data hash css = ⟨[], .error .badRequest⟩ ∧
    pdfSingle folder uploadFolder db user data hash css = ⟨[], .error .badRequest⟩ := by
  unfold pdfIndividual pdfSingle
  simp [h]

/-- Witness for C9 at a concrete request with no lectures. -/
theorem emptyLectures_badRequest_witness :
    (⟨"c", []⟩ : IDownload).lectures = [] ∧
    pdfIndividual [] ⟨[], [], [], []⟩ ⟨"u", "student"⟩ ⟨"c", []⟩ "h" "" =
      ⟨[], .error .badRequest⟩ ∧
    pdfSingle [] [] ⟨[], [], [], []⟩ ⟨"u", "student"⟩ ⟨"c", []⟩ "h" "" =
      ⟨[], .error .badRequest⟩ :=
  ⟨rfl,
   (emptyLectures_badRequest [] [] ⟨[], [], [], []⟩ ⟨"u", "student"⟩ ⟨"c", []⟩ "h" "" rfl).1,
   (emptyLectures_badRequest [] [] ⟨[], [], [], []⟩ ⟨"u", "student"⟩ ⟨"c", []⟩ "h" "" rfl).2⟩

/-- C10: in `updateProgress`, a unit with a deadline strictly in the past is
rejected with `BadRequestError` and no progress record is written; the
privilege check runs first, so a user without view privileges gets
`ForbiddenError` instead, whatever the deadline. -/
theorem updateProgress_deadline_order
    (db : DB) (store : List (String × String)) (now : Int) (dataUnit : String)
    (user : IUserM) (lu : UnitDoc) (course : CourseDoc)
    (hu : lookupKey dataUnit db.units = some lu)
    (hc : lookupKey lu.course db.courses = some course) :
    (course.canView.contains user.id = true →
      ∀ d, lu.deadline = some d → d < now →
        updateProgress db store now dataUnit user = ⟨[], .error .badRequest⟩) ∧
    (course.canView.contains user.id = false →
      updateProgress db store now dataUnit user = ⟨[], .error .forbidden⟩) := by
  constructor
  · intro hv d hd hlt
    have hv2 : user.id ∈ course.canView := by simpa using hv
    simp [updateProgress, hu, hc, hv2, checkDeadline, hd, hlt]
  · intro hv
    have hv2 : user.id ∉ course.canView := by simpa using hv
    simp [updateProgress, hu, hc, hv2]

/-- Witness for C10: a concrete unit with a past deadline, one privileged and
one unprivileged user. -/
theorem updateProgress_deadline_order_witness :
    lookupKey "u1" sampleProgDB.units = some sampleTaskUnit ∧
    lookupKey sampleTaskUnit.course sampleProgDB.courses = some sampleCourse ∧
    updateProgress sampleProgDB [] 10 "u1" ⟨"alice", "student"⟩ =
      ⟨[], .error .badRequest⟩ ∧
    updateProgress sampleProgDB [] 10 "u1" ⟨"bob", "student"⟩ =
      ⟨[], .error .forbidden⟩ :=
  ⟨by decide, by decide,
   (updateProgress_deadline_order sampleProgDB [] 10 "u1" ⟨"alice", "student"⟩
      sampleTaskUnit sampleCourse (by decide) (by decide)).1 (by decide) 5 rfl (by decide),
   (updateProgress_deadline_order sampleProgDB [] 10 "u1" ⟨"bob", "student"⟩
      sampleTaskUnit sampleCourse (by decide) (by decide)).2 (by decide)⟩

/-- C2: when the computed package size exceeds `config.maxZipSize` or some
selected file exceeds `config.maxFileSize`, both export endpoints throw
`BadRequestError` with an empty effect trace: no output stream is opened, no
archive entry is added and no PDF is rendered. -/
theorem oversize_badRequest
    (folder uploadFolder : AbsPath) (db : DB) (user : IUserM) (data : IDownload)
    (hash css : String) (course : CourseDoc) (s : PackResult)
    (hlen : data.lectures ≠ [])
    (hc : lookupKey data.courseName db.courses = some course)
    (hauth : userCanExportCourse course user = true)
    (hs : calcPackage db data = .ok s)
    (hbig : maxZipSize < s.totalSize ∨ s.tooLargeFiles ≠ []) :
    pdfIndividual folder db user data hash css = ⟨[], .error .badRequest⟩ ∧
    pdfSingle folder uploadFolder db user data hash css = ⟨[], .error .badRequest⟩ := by
  have hlen0 : ¬ data.lectures.length = 0 := by
    simpa [List.length_eq_zero] using hlen
  rcases hbig with h | h <;>
    exact ⟨by simp [pdfIndividual, hlen0, hc, hauth, hs, h],
           by simp [pdfSingle, hlen0, hc, hauth, hs, h]⟩

/-- Evaluation of `calcPackage` on the oversize sample store. -/
theorem calcPackage_sample_eval :
    calcPackage sampleDlDB sampleData = .ok ⟨307200, ["big"]⟩ := by
  norm_num [calcPackage, calcLectures, calcUnits, calcFiles, sampleDlDB, sampleData,
    sampleFileUnit, bigFile, lookupKey, maxFileSize]

/-- Witness for C2: an admin exporting a course whose selected attachment is
300 MiB, exceeding both limits. -/
theorem oversize_badRequest_witness :
    sampleData.lectures ≠ [] ∧
    lookupKey sampleData.courseName sampleDlDB.courses = some sampleCourse ∧
    userCanExportCourse sampleCourse adminUser = true ∧
    calcPackage sampleDlDB sampleData = .ok ⟨307200, ["big"]⟩ ∧
    (maxZipSize < (307200 : ℚ) ∨ (["big"] : List String) ≠ []) ∧
    pdfIndividual [] sampleDlDB adminUser sampleData "h" "" = ⟨[], .error .badRequest⟩ ∧
    pdfSingle [] [] sampleDlDB adminUser sampleData "h" "" = ⟨[], .error .badRequest⟩ :=
  ⟨by decide, by decide, by decide, calcPackage_sample_eval, by norm_num [maxZipSize],
   (oversize_badRequest [] [] sampleDlDB adminUser sampleData "h" "" sampleCourse
      ⟨307200, ["big"]⟩ (by decide) (by decide) (by decide) calcPackage_sample_eval
      (by norm_num [maxZipSize])).1,
   (oversize_badRequest [] [] sampleDlDB adminUser sampleData "h" "" sampleCourse
      ⟨307200, ["big"]⟩ (by decide) (by decide) (by decide) calcPackage_sample_eval
      (by norm_num [maxZipSize])).2⟩

/-- C1: `getArchivedFile` serves a file only when the joined path lies
directly inside the resolved cache folder and exists; whenever the joined path
escapes the folder the request is rejected with `ForbiddenError` independently
of the filesystem contents, and an in-folder path that does not exist yields
`NotFoundError`. -/
theorem getArchivedFile_pathSafe
    (folder : AbsPath) (fsys : List AbsPath) (id : String) (hne : folder ≠ []) :
    (∀ p, getArchivedFile folder fsys id = .ok p → (∃ s, p = folder ++ [s]) ∧ p ∈ fsys) ∧
    ((¬ ∃ rest, dlPath folder id = folder ++ rest) →
      ∀ fsys2, getArchivedFile folder fsys2 id = .error .forbidden) ∧
    ((dlPath folder id).dropLast = folder → dlPath folder id ∉ fsys →
      getArchivedFile folder fsys id = .error .notFound) := by
  have key : (dlPath folder id).dropLast = folder → ∃ s, dlPath folder id = folder ++ [s] := by
    intro hd
    have hnil : dlPath folder id ≠ [] := by
      intro h0
      rw [h0] at hd
      simp at hd
      exact hne hd
    refine ⟨(dlPath folder id).getLast hnil, ?_⟩
    conv_lhs => rw [← List.dropLast_append_getLast hnil]
    rw [hd]
  refine ⟨?_, ?_, ?_⟩
  · intro p hp
    by_cases hd : (dlPath folder id).dropLast = folder
    · by_cases hm : dlPath folder id ∈ fsys
      · simp [getArchivedFile, hd, hm] at hp
        subst hp
        exact ⟨key hd, hm⟩
      · simp [getArchivedFile, hd, hm] at hp
    · simp [getArchivedFile, hd] at hp
  · intro hesc fsys2
    have hd : ¬ (dlPath folder id).dropLast = folder := by
      intro hd
      rcases key hd with ⟨s, hs⟩
      exact hesc ⟨[s], hs⟩
    simp [getArchivedFile, hd]
  · intro hd hmem
    simp [getArchivedFile, hd, hmem]

/-- `hasPref` is the prefix relation. -/
theorem hasPref_iff (p : List Char) : ∀ l, hasPref p l = true ↔ ∃ t, l = p ++ t := by
  induction p with
  | nil => intro l; simp [hasPref]
  | cons x xs ih =>
    intro l
    cases l with
    | nil => simp [hasPref]
    | cons y ys =>
      simp only [hasPref, Bool.and_eq_true, beq_iff_eq, ih, List.cons_append, List.cons.injEq]
      constructor
      · rintro ⟨rfl, t, rfl⟩
        exact ⟨t, rfl, rfl⟩
      · rintro ⟨t, rfl, rfl⟩
        exact ⟨rfl, t, rfl⟩

/-- `afterWord` accepts exactly the lists of the form
`(word chars) ++ (one non-line-terminator char) ++ zip ++ (anything)`. -/
theorem afterWord_iff : ∀ l, afterWord l = true ↔
    ∃ w c b, l = w ++ c :: 'z' :: 'i' :: 'p' :: b ∧ (∀ x ∈ w, isWordChar x = true) ∧
      isDotChar c = true := by
  intro l
  induction l with
  | nil =>
    constructor
    · intro h
      simp [afterWord] at h
    · rintro ⟨w, c, b, h, -, -⟩
      cases w <;> simp at h
  | cons x rest ih =>
    constructor
    · intro h
      simp only [afterWord, Bool.or_eq_true, Bool.and_eq_true] at h
      rcases h with ⟨hdot, h⟩ | ⟨hx, hr⟩
      · rcases (hasPref_iff _ _).mp h with ⟨b, rfl⟩
        exact ⟨[], x, b, rfl, by simp, hdot⟩
      · rcases ih.mp hr with ⟨w, c, b, hl, hw, hdot⟩
        refine ⟨x :: w, c, b, by simp [hl], ?_, hdot⟩
        intro y hy
        rcases List.mem_cons.mp hy with rfl | hy
        · exact hx
        · exact hw y hy
    · rintro ⟨w, c, b, hl, hw, hdot⟩
      cases w with
      | nil =>
        simp only [List.nil_append, List.cons.injEq] at hl
        rcases hl with ⟨rfl, rfl⟩
        simp only [afterWord, Bool.or_eq_true, Bool.and_eq_true]
        exact Or.inl ⟨hdot, (hasPref_iff _ _).mpr ⟨b, rfl⟩⟩
      | cons y w2 =>
        simp only [List.cons_append, List.cons.injEq] at hl
        rcases hl with ⟨rfl, hrest⟩
        simp only [afterWord, Bool.or_eq_true, Bool.and_eq_true]
        refine Or.inr ⟨hw x (by simp), ?_⟩
        exact ih.mpr ⟨w2, c, b, hrest, fun z hz => hw z (by simp [hz]), hdot⟩

/-- `wordDotZip` accepts exactly a nonempty word-character run, one
non-line-terminator character, then `zip`. -/
theorem wordDotZip_iff : ∀ l, wordDotZip l = true ↔
    ∃ w c b, l = w ++ c :: 'z' :: 'i' :: 'p' :: b ∧ w ≠ [] ∧
      (∀ x ∈ w, isWordChar x = true) ∧ isDotChar c = true := by
  intro l
  cases l with
  | nil =>
    constructor
    · intro h
      simp [wordDotZip] at h
    · rintro ⟨w, c, b, h, -, -, -⟩
      cases w <;> simp at h
  | cons x rest =>
    simp only [wordDotZip, Bool.and_eq_true, afterWord_iff]
    constructor
    · rintro ⟨hx, w, c, b, rfl, hw, hdot⟩
      refine ⟨x :: w, c, b, rfl, by simp, ?_, hdot⟩
      intro y hy
      rcases List.mem_cons.mp hy with rfl | hy
      · exact hx
      · exact hw y hy
    · rintro ⟨w, c, b, hl, hw0, hw, hdot⟩
      cases w with
      | nil => exact absurd rfl hw0
      | cons y w2 =>
        simp only [List.cons_append, List.cons.injEq] at hl
        rcases hl with ⟨rfl, hrest⟩
        exact ⟨hw x (by simp), w2, c, b, hrest, fun z hz => hw z (by simp [hz]), hdot⟩

/-- The executable regex test agrees with the declarative pattern reading. -/
theorem regexTest_iff_nameMatch : ∀ l, regexTest l = true ↔ NameMatch l := by
  intro l
  induction l with
  | nil =>
    constructor
    · intro h
      simp [regexTest] at h
    · rintro ⟨a, w, c, b, h, -, -, -⟩
      cases a <;> simp at h
  | cons x rest ih =>
    constructor
    · intro h
      simp only [regexTest, Bool.or_eq_true, Bool.and_eq_true] at h
      rcases h with ⟨hpre, hz⟩ | h
      · rcases (hasPref_iff _ _).mp hpre with ⟨t, ht⟩
        have hdrop : (x :: rest).drop 9 = t := by
          rw [ht]
          exact List.drop_left "download_".data t
        rw [hdrop] at hz
        rcases (wordDotZip_iff _).mp hz with ⟨w, c, b, rfl, hw0, hw, hdot⟩
        exact ⟨[], w, c, b, by simpa using ht, hw0, hw, hdot⟩
      · rcases ih.mp h with ⟨a, w, c, b, hl, hw0, hw, hdot⟩
        exact ⟨x :: a, w, c, b, by simp [hl], hw0, hw, hdot⟩
    · rintro ⟨a, w, c, b, hl, hw0, hw, hdot⟩
      cases a with
      | nil =>
        simp only [List.nil_append] at hl
        have hpre : hasPref "download_".data (x :: rest) = true :=
          (hasPref_iff _ _).mpr ⟨w ++ c :: 'z' :: 'i' :: 'p' :: b, by simpa using hl⟩
        have hdrop : (x :: rest).drop 9 = w ++ c :: 'z' :: 'i' :: 'p' :: b := by
          have : (x :: rest) = "download_".data ++ (w ++ c :: 'z' :: 'i' :: 'p' :: b) := by
            simpa using hl
          rw [this]
          exact List.drop_left "download_".data _
        simp only [regexTest, Bool.or_eq_true, Bool.and_eq_true]
        exact Or.inl ⟨hpre, hdrop ▸ (wordDotZip_iff _).mpr ⟨w, c, b, rfl, hw0, hw, hdot⟩⟩
      | cons y a2 =>
        simp only [List.cons_append, List.cons.injEq] at hl
        rcases hl with ⟨rfl, hrest⟩
        simp only [regexTest, Bool.or_eq_true]
        exact Or.inr (ih.mpr ⟨a2, w, c, b, hrest, hw0, hw, hdot⟩)

/-- C4: one sweep of `cleanupCache` removes exactly the files whose name
passes the `download_(\w+).zip` test and whose creation time lies more than
one hour before the sweep, keeping every other file; and the test holds
exactly when the name contains `download_`, a nonempty word-character run, one
character matched by the regex `.` (any character except a line terminator)
and `zip`, in that order. -/
theorem cleanupCache_spec (now : Int) (fsys : List CacheFile) :
    cleanupCache now fsys =
      fsys.filter (fun f => !(regexTest f.name.data && decide (f.ctimeMs < now - 3600 * 1000))) ∧
    ∀ l, regexTest l = true ↔ NameMatch l := by
  refine ⟨?_, regexTest_iff_nameMatch⟩
  induction fsys with
  | nil => simp [cleanupCache]
  | cons f rest ih =>
    by_cases ht : regexTest f.name.data = true
    · by_cases hc : f.ctimeMs < now - 3600 * 1000
      · have hc2 : ¬ (now - 3600 * 1000 ≤ f.ctimeMs) := by omega
        simp only [cleanupCache]
        rw [if_neg (by simp [ht]), if_neg hc2, ih, List.filter_cons]
        simp [ht, hc]
        rw [if_neg (by omega)]
      · have hc2 : now - 3600 * 1000 ≤ f.ctimeMs := by omega
        simp only [cleanupCache]
        rw [if_neg (by simp [ht]), if_pos hc2, ih, List.filter_cons]
        simp [ht, hc]
        rw [if_pos (by omega)]
    · have ht2 : regexTest f.name.data = false := by
        cases h2 : regexTest f.name.data
        · rfl
        · exact absurd h2 ht
      simp only [cleanupCache]
      rw [if_pos ht2, ih, List.filter_cons]
      simp [ht2]

/-- Witness for C1: the folder `/tmp` with an empty filesystem and the
traversal id `../x`. -/
theorem getArchivedFile_pathSafe_witness :
    ([['t', 'm', 'p']] : AbsPath) ≠ [] ∧
    ((∀ p, getArchivedFile [['t', 'm', 'p']] [] "../x" = .ok p →
        (∃ s, p = [['t', 'm', 'p']] ++ [s]) ∧ p ∈ ([] : List AbsPath)) ∧
     ((¬ ∃ rest, dlPath [['t', 'm', 'p']] "../x" = [['t', 'm', 'p']] ++ rest) →
        ∀ fsys2, getArchivedFile [['t', 'm', 'p']] fsys2 "../x" = .error .forbidden) ∧
     ((dlPath [['t', 'm', 'p']] "../x").dropLast = [['t', 'm', 'p']] →
        dlPath [['t', 'm', 'p']] "../x" ∉ ([] : List AbsPath) →
        getArchivedFile [['t', 'm', 'p']] [] "../x" = .error .notFound)) :=
  ⟨by decide, getArchivedFile_pathSafe [['t', 'm', 'p']] [] "../x" (by decide)⟩

/-- Splitting a slash-free character list yields the single segment. -/
theorem splitSlash_no_slash : ∀ l : List Char, (∀ c ∈ l, ¬ c = '/') → splitSlash l = [l] := by
  intro l
  induction l with
  | nil => intro _; rfl
  | cons c rest ih =>
    intro h
    have hc : ¬ c = '/' := h c (by simp)
    have hr := ih fun x hx => h x (by simp [hx])
    simp [splitSlash, hc, hr]

/-- A segment that starts with a non-dot character is pushed by the
normalisation step. -/
theorem normStep_cons (stack : AbsPath) (c : Char) (s : List Char) (h0 : ¬ c = '.') :
    normStep stack (c :: s) = stack ++ [c :: s] := by
  unfold normStep
  rw [if_neg (by simp), if_neg (by simp [h0]), if_neg (by simp [h0])]

/-- For a 32-hex-character hash the joined download path is exactly the cache
folder extended by the single zip file name. -/
theorem dlPath_hex (folder : AbsPath) (hash : String) (hhex : IsHexHash hash) :
    dlPath folder hash = folder ++ [zipSegOf hash] := by
  have hns : ∀ c ∈ hash.data, ¬ c = '/' := by
    intro c hc heq
    have h2 := hhex.2 c hc
    rw [heq] at h2
    exact absurd h2 (by decide)
  have hd9 : ∀ c ∈ "download_".data, ¬ c = '/' := by decide
  have hz : ∀ c ∈ ".zip".data, ¬ c = '/' := by decide
  have hall : ∀ c ∈ ("download_" ++ hash ++ ".zip").data, ¬ c = '/' := by
    intro c hc
    rw [String.data_append, String.data_append] at hc
    rcases List.mem_append.mp hc with h1 | h1
    · rcases List.mem_append.mp h1 with h2 | h2
      · exact hd9 c h2
      · exact hns c h2
    · exact hz c h1
  have hshape : ("download_" ++ hash ++ ".zip").data =
      'd' :: ("ownload_".data ++ hash.data ++ ".zip".data) := by
    rw [String.data_append, String.data_append]
    show ('d' :: "ownload_".data) ++ hash.data ++ ".zip".data = _
    simp
  unfold dlPath joinPath zipSegOf
  rw [splitSlash_no_slash _ hall, List.foldl_cons, List.foldl_nil, hshape,
    normStep_cons _ _ _ (by decide)]

/-- The unit loop of the single endpoint only appends to the effect trace. -/
theorem singleUnits_effects_mono (db : DB) (uf : AbsPath) (nm lc : String) (lcount : Nat) :
    ∀ us uc sc acc, ∃ t, ((singleUnits db uf nm lc lcount uc sc acc us).1).effects =
      acc.effects ++ t := by
  intro us
  induction us with
  | nil => intro uc sc acc; exact ⟨[], by simp [singleUnits]⟩
  | cons u rest ih =>
    intro uc sc acc
    have step : ∀ (sc2 : Nat) (acc2 : SingleAcc) (pre : List Effect),
        acc2.effects = acc.effects ++ pre →
        ∃ t, ((singleUnits db uf nm lc lcount (uc + 1) sc2 acc2 rest).1).effects =
          acc.effects ++ t := by
      intro sc2 acc2 pre he
      rcases ih (uc + 1) sc2 acc2 with ⟨t, ht⟩
      exact ⟨pre ++ t, by rw [ht, he, List.append_assoc]⟩
    simp only [singleUnits]
    split
    · exact ⟨[], by simp⟩
    · split
      · split
        · exact ⟨(singleFileEffects db uf lcount lc uc u.files).1, by simp⟩
        · exact step _ _ _ rfl
      · exact step _ _ [] (by simp)

/-- The lecture loop of the single endpoint only appends to the effect
trace. -/
theorem singleLectures_effects_mono (db : DB) (uf : AbsPath) :
    ∀ lecs n acc, ∃ t, ((singleLectures db uf n acc lecs).1).effects = acc.effects ++ t := by
  intro lecs
  induction lecs with
  | nil => intro n acc; exact ⟨[], by simp [singleLectures]⟩
  | cons lec rest ih =>
    intro n acc
    have hum : ∀ (nm lcn : String) (acc0 : SingleAcc), acc0.effects = acc.effects →
        ∃ t, ((singleUnits db uf nm lcn n 1 1 acc0 lec.units).1).effects =
          acc.effects ++ t := by
      intro nm lcn acc0 he
      rcases singleUnits_effects_mono db uf nm lcn n lec.units 1 1 acc0 with ⟨t, ht⟩
      exact ⟨t, by rw [ht, he]⟩
    have step : ∀ (acc1 : SingleAcc) (pre : List Effect), acc1.effects = acc.effects ++ pre →
        ∃ t2, ((singleLectures db uf (n + 1) acc1 rest).1).effects = acc.effects ++ t2 := by
      intro acc1 pre he
      rcases ih (n + 1) acc1 with ⟨t2, ht2⟩
      exact ⟨pre ++ t2, by rw [ht2, he, List.append_assoc]⟩
    simp only [singleLectures]
    split
    · exact ⟨[], by simp⟩
    · rename_i ld _
      rcases hum ld.name (replaceCharInFilename ld.name) ⟨acc.effects,
        acc.html ++
          (if 1 < n then "<div id=\"nextPage\" ><h2>Lecture: " ++ ld.name ++ "</h2>"
           else "<div><h2>Lecture: " ++ ld.name ++ "</h2>"),
        acc.solutions, acc.firstSol⟩ rfl with ⟨t, ht⟩
      split
      · exact ⟨t, ht⟩
      · exact step _ t ht

/-- Case shape of `pdfIndividual`: either it fails before opening the output
stream with an empty trace, or its first effect is opening the output stream
at the joined download path, and a returned hash is the input hash. -/
theorem pdfIndividual_shape (folder : AbsPath) (db : DB) (user : IUserM) (data : IDownload)
    (hash css : String) :
    (∃ e, pdfIndividual folder db user data hash css = ⟨[], .error e⟩) ∨
    (∃ es res, pdfIndividual folder db user data hash css =
        ⟨Effect.createStream (dlPath folder hash) :: es, res⟩ ∧
      ∀ h2, res = .ok h2 → h2 = hash) := by
  simp only [pdfIndividual]
  split
  · exact Or.inl ⟨.badRequest, rfl⟩
  · split
    · exact Or.inl ⟨.notFound, rfl⟩
    · split
      · exact Or.inl ⟨.forbidden, rfl⟩
      · split
        · exact Or.inl ⟨_, rfl⟩
        · split
          · exact Or.inl ⟨.badRequest, rfl⟩
          · split
            · exact Or.inr ⟨(indivLectures db css 1 data.lectures).1, _, rfl, by simp⟩
            · exact Or.inr ⟨(indivLectures db css 1 data.lectures).1, .ok hash, rfl,
                fun h2 hh => by simpa using hh.symm⟩

/-- Case shape of `pdfSingle`: as for `pdfIndividual`. -/
theorem pdfSingle_shape (folder uploadFolder : AbsPath) (db : DB) (user : IUserM)
    (data : IDownload) (hash css : String) :
    (∃ e, pdfSingle folder uploadFolder db user data hash css = ⟨[], .error e⟩) ∨
    (∃ es res, pdfSingle folder uploadFolder db user data hash css =
        ⟨Effect.createStream (dlPath folder hash) :: es, res⟩ ∧
      ∀ h2, res = .ok h2 → h2 = hash) := by
  simp only [pdfSingle]
  split
  · exact Or.inl ⟨.badRequest, rfl⟩
  · split
    · exact Or.inl ⟨.notFound, rfl⟩
    · rename_i course _
      split
      · exact Or.inl ⟨.forbidden, rfl⟩
      · split
        · exact Or.inl ⟨_, rfl⟩
        · split
          · exact Or.inl ⟨.badRequest, rfl⟩
          · rcases singleLectures_effects_mono db uploadFolder data.lectures 1
              ⟨[Effect.createStream (dlPath folder hash)], singleHtmlHead css, solutionsHead,
                false⟩ with ⟨t, ht⟩
            split
            · exact Or.inr ⟨t, _, by rw [EndpointOut.mk.injEq]; exact ⟨by simpa using ht, rfl⟩,
                by simp⟩
            · refine Or.inr ⟨t ++ [Effect.appendPdf
                  (((singleLectures db uploadFolder 1
                      ⟨[Effect.createStream (dlPath folder hash)], singleHtmlHead css,
                        solutionsHead, false⟩ data.lectures).1).html ++
                    ((singleLectures db uploadFolder 1
                      ⟨[Effect.createStream (dlPath folder hash)], singleHtmlHead css,
                        solutionsHead, false⟩ data.lectures).1).solutions ++
                    "</div></body></html>")
                  (replaceCharInFilename course.name ++ ".pdf")], .ok hash, ?_,
                fun h2 hh => by simpa using hh.symm⟩
              rw [EndpointOut.mk.injEq]
              refine ⟨?_, rfl⟩
              rw [ht]
              simp

/-- C5: for a 32-hex-character hash, both export endpoints write the archive
to the cache folder as `download_<hash>.zip` (the opened output stream is the
first effect and the returned hash is that hash), a subsequent
`getArchivedFile` with that hash passes the path check and the existence check
and serves exactly that file, and such a hash can never trigger the
`ForbiddenError` path. -/
theorem hash_roundtrip
    (folder uploadFolder : AbsPath) (db : DB) (user : IUserM) (data : IDownload)
    (hash css : String) (hhex : IsHexHash hash) :
    dlPath folder hash = folder ++ [zipSegOf hash] ∧
    (∀ h2, (pdfIndividual folder db user data hash css).result = .ok h2 →
      h2 = hash ∧ ∃ es, (pdfIndividual folder db user data hash css).effects =
        Effect.createStream (folder ++ [zipSegOf hash]) :: es) ∧
    (∀ h2, (pdfSingle folder uploadFolder db user data hash css).result = .ok h2 →
      h2 = hash ∧ ∃ es, (pdfSingle folder uploadFolder db user data hash css).effects =
        Effect.createStream (folder ++ [zipSegOf hash]) :: es) ∧
    (∀ fsys, folder ++ [zipSegOf hash] ∈ fsys →
      getArchivedFile folder fsys hash = .ok (folder ++ [zipSegOf hash])) ∧
    (∀ fsys, getArchivedFile folder fsys hash ≠ .error .forbidden) := by
  have hdl := dlPath_hex folder hash hhex
  refine ⟨hdl, ?_, ?_, ?_, ?_⟩
  · intro h2 hres
    rcases pdfIndividual_shape folder db user data hash css with ⟨e, he⟩ | ⟨es, res, heq, hok⟩
    · rw [he] at hres
      simp at hres
    · rw [heq] at hres
      refine ⟨hok h2 hres, es, ?_⟩
      rw [heq, hdl]
  · intro h2 hres
    rcases pdfSingle_shape folder uploadFolder db user data hash css with
      ⟨e, he⟩ | ⟨es, res, heq, hok⟩
    · rw [he] at hres
      simp at hres
    · rw [heq] at hres
      refine ⟨hok h2 hres, es, ?_⟩
      rw [heq, hdl]
  · intro fsys hmem
    simp [getArchivedFile, hdl, hmem]
  · intro fsys
    by_cases hmem : folder ++ [zipSegOf hash] ∈ fsys <;>
      simp [getArchivedFile, hdl, hmem]

/-- Witness for C5 at a concrete 32-hex hash and the folder `/tmp`. -/
theorem hash_roundtrip_witness :
    IsHexHash "0123456789abcdef0123456789abcdef" ∧
    dlPath [['t', 'm', 'p']] "0123456789abcdef0123456789abcdef" =
      [['t', 'm', 'p']] ++ [zipSegOf "0123456789abcdef0123456789abcdef"] ∧
    (∀ fsys, [['t', 'm', 'p']] ++ [zipSegOf "0123456789abcdef0123456789abcdef"] ∈ fsys →
      getArchivedFile [['t', 'm', 'p']] fsys "0123456789abcdef0123456789abcdef" =
        .ok ([['t', 'm', 'p']] ++ [zipSegOf "0123456789abcdef0123456789abcdef"])) ∧
    (∀ fsys, getArchivedFile [['t', 'm', 'p']] fsys "0123456789abcdef0123456789abcdef" ≠
      .error .forbidden) :=
  ⟨by decide,
   (hash_roundtrip [['t', 'm', 'p']] [] ⟨[], [], [], []⟩ ⟨"u", "student"⟩ ⟨"c", []⟩
      "0123456789abcdef0123456789abcdef" "" (by decide)).1,
   (hash_roundtrip [['t', 'm', 'p']] [] ⟨[], [], [], []⟩ ⟨"u", "student"⟩ ⟨"c", []⟩
      "0123456789abcdef0123456789abcdef" "" (by decide)).2.2.2.1,
   (hash_roundtrip [['t', 'm', 'p']] [] ⟨[], [], [], []⟩ ⟨"u", "student"⟩ ⟨"c", []⟩
      "0123456789abcdef0123456789abcdef" "" (by decide)).2.2.2.2⟩

/-- `selSizes` distributes over append. -/
theorem selSizes_append (a b : List FileDoc) : selSizes (a ++ b) = selSizes a + selSizes b := by
  simp [selSizes]

/-- `largeOf` distributes over append. -/
theorem largeOf_append (a b : List FileDoc) : largeOf (a ++ b) = largeOf a ++ largeOf b := by
  simp [largeOf]

/-- Closed form of the `forEach` fold of `calcPackage` over one unit's
attachments. -/
theorem calcFiles_spec (sel : List Nat) : ∀ (fs : List FileDoc) (i : Nat) (tot : ℚ)
    (large : List String),
    calcFiles sel i fs (tot, large) =
      (tot + selSizes (((enumFrom i fs).filter fun p => sel.contains p.1).map fun p => p.2),
       large ++ largeOf (((enumFrom i fs).filter fun p => sel.contains p.1).map fun p => p.2)) := by
  intro fs
  induction fs with
  | nil =>
    intro i tot large
    simp [calcFiles, enumFrom, selSizes, largeOf]
  | cons f rest ih =>
    intro i tot large
    by_cases hselm : i ∈ sel
    · by_cases hbig : maxFileSize < f.size / 1024
      · rw [show calcFiles sel i (f :: rest) (tot, large) =
            calcFiles sel (i + 1) rest (tot + f.size / 1024, large ++ [f.link]) from by
          simp [calcFiles, hselm, if_pos hbig], ih]
        simp [enumFrom, selSizes, largeOf, hselm, hbig, add_assoc]
      · rw [show calcFiles sel i (f :: rest) (tot, large) =
            calcFiles sel (i + 1) rest (tot + f.size / 1024, large) from by
          simp [calcFiles, hselm, if_neg hbig], ih]
        simp [enumFrom, selSizes, largeOf, hselm, hbig, add_assoc]
    · rw [show calcFiles sel i (f :: rest) (tot, large) =
          calcFiles sel (i + 1) rest (tot, large) from by
        simp [calcFiles, hselm], ih]
      simp [enumFrom, selSizes, largeOf, hselm]

/-- Closed form and failure behaviour of the unit loop of `calcPackage`. -/
theorem calcUnits_spec (db : DB) : ∀ (us : List UnitRef) (tot : ℚ) (large : List String),
    ((∀ u ∈ us, (lookupKey u.unitId db.units).isSome = true) →
      calcUnits db us (tot, large) =
        .ok (tot + selSizes ((us.map (selectedOfUnit db)).flatten),
             large ++ largeOf ((us.map (selectedOfUnit db)).flatten))) ∧
    ((¬ ∀ u ∈ us, (lookupKey u.unitId db.units).isSome = true) →
      calcUnits db us (tot, large) = .error .notFound) := by
  intro us
  induction us with
  | nil =>
    intro tot large
    constructor
    · intro _
      simp [calcUnits, selSizes, largeOf]
    · intro h
      exact absurd (by simp) h
  | cons u rest ih =>
    intro tot large
    cases hu : lookupKey u.unitId db.units with
    | none =>
      constructor
      · intro hall
        have := hall u (by simp)
        rw [hu] at this
        simp at this
      · intro _
        simp [calcUnits, hu]
    | some lu =>
      constructor
      · intro hall
        have hrest : ∀ v ∈ rest, (lookupKey v.unitId db.units).isSome = true :=
          fun v hv => hall v (by simp [hv])
        by_cases ht : lu.t = "file"
        · rw [show calcUnits db (u :: rest) (tot, large) =
              calcUnits db rest (calcFiles u.files 0 lu.files (tot, large)) from by
            simp [calcUnits, hu, ht], calcFiles_spec u.files lu.files 0 tot large]
          rw [((ih (tot + selSizes (((enumFrom 0 lu.files).filter
              fun p => u.files.contains p.1).map fun p => p.2))
            (large ++ largeOf (((enumFrom 0 lu.files).filter
              fun p => u.files.contains p.1).map fun p => p.2))).1) hrest]
          have hsel : selectedOfUnit db u = ((enumFrom 0 lu.files).filter
              fun p => u.files.contains p.1).map fun p => p.2 := by
            simp [selectedOfUnit, hu, ht]
          simp [hsel, selSizes_append, largeOf_append, add_assoc]
        · rw [show calcUnits db (u :: rest) (tot, large) =
              calcUnits db rest (tot, large) from by simp [calcUnits, hu, ht],
            ((ih tot large).1) hrest]
          have hsel : selectedOfUnit db u = [] := by
            simp [selectedOfUnit, hu, ht]
          simp [hsel]
      · intro hnall
        have hrest : ¬ ∀ v ∈ rest, (lookupKey v.unitId db.units).isSome = true := by
          intro hr
          exact hnall fun v hv => by
            rcases List.mem_cons.mp hv with rfl | hv2
            · simp [hu]
            · exact hr v hv2
        by_cases ht : lu.t = "file"
        · rw [show calcUnits db (u :: rest) (tot, large) =
              calcUnits db rest (calcFiles u.files 0 lu.files (tot, large)) from by
            simp [calcUnits, hu, ht], calcFiles_spec u.files lu.files 0 tot large]
          exact (ih _ _).2 hrest
        · rw [show calcUnits db (u :: rest) (tot, large) =
              calcUnits db rest (tot, large) from by simp [calcUnits, hu, ht]]
          exact (ih tot large).2 hrest

/-- Closed form and failure behaviour of the lecture loop of `calcPackage`. -/
theorem calcLectures_spec (db : DB) : ∀ (lecs : List LectureRef) (tot : ℚ) (large : List String),
    ((∀ lec ∈ lecs, ∀ u ∈ lec.units, (lookupKey u.unitId db.units).isSome = true) →
      calcLectures db lecs (tot, large) =
        .ok (tot + selSizes ((lecs.map fun lec => ((lec.units.map (selectedOfUnit db)).flatten)).flatten),
             large ++ largeOf ((lecs.map fun lec => ((lec.units.map (selectedOfUnit db)).flatten)).flatten))) ∧
    ((¬ ∀ lec ∈ lecs, ∀ u ∈ lec.units, (lookupKey u.unitId db.units).isSome = true) →
      calcLectures db lecs (tot, large) = .error .notFound) := by
  intro lecs
  induction lecs with
  | nil =>
    intro tot large
    constructor
    · intro _
      simp [calcLectures, selSizes, largeOf]
    · intro h
      exact absurd (by simp) h
  | cons lec rest ih =>
    intro tot large
    constructor
    · intro hall
      have hlec : ∀ u ∈ lec.units, (lookupKey u.unitId db.units).isSome = true :=
        hall lec (by simp)
      have hrest : ∀ l2 ∈ rest, ∀ u ∈ l2.units, (lookupKey u.unitId db.units).isSome = true :=
        fun l2 h2 => hall l2 (by simp [h2])
      rw [show calcLectures db (lec :: rest) (tot, large) =
          (match calcUnits db lec.units (tot, large) with
           | .error e => .error e
           | .ok acc1 => calcLectures db rest acc1) from rfl,
        (calcUnits_spec db lec.units tot large).1 hlec]
      change calcLectures db rest _ = _
      rw [((ih _ _).1) hrest]
      simp [selSizes_append, largeOf_append, add_assoc]
    · intro hnall
      by_cases hlec : ∀ u ∈ lec.units, (lookupKey u.unitId db.units).isSome = true
      · have hrest : ¬ ∀ l2 ∈ rest, ∀ u ∈ l2.units, (lookupKey u.unitId db.units).isSome = true := by
          intro hr
          exact hnall fun l2 h2 => by
            rcases List.mem_cons.mp h2 with rfl | h3
            · exact hlec
            · exact hr l2 h3
        rw [show calcLectures db (lec :: rest) (tot, large) =
            (match calcUnits db lec.units (tot, large) with
             | .error e => .error e
             | .ok acc1 => calcLectures db rest acc1) from rfl,
          (calcUnits_spec db lec.units tot large).1 hlec]
        change calcLectures db rest _ = _
        exact (ih _ _).2 hrest
      · rw [show calcLectures db (lec :: rest) (tot, large) =
            (match calcUnits db lec.units (tot, large) with
             | .error e => .error e
             | .ok acc1 => calcLectures db rest acc1) from rfl,
          (calcUnits_spec db lec.units tot large).2 hlec]

/-- C3: when every referenced unit exists, `calcPackage` returns exactly the
sum of `size / 1024` over the selected attachments of the request's file units
as `totalSize` and exactly the links of the selected attachments exceeding
`config.maxFileSize` as `tooLargeFiles` (all other unit types contribute
nothing); when some referenced unit does not exist it throws
`NotFoundError`. -/
theorem calcPackage_spec (db : DB) (pack : IDownload) :
    (UnitsExist db pack →
      calcPackage db pack =
        .ok ⟨selSizes (selectedFiles db pack), largeOf (selectedFiles db pack)⟩) ∧
    (¬ UnitsExist db pack → calcPackage db pack = .error .notFound) := by
  constructor
  · intro hex
    unfold calcPackage
    rw [(calcLectures_spec db pack.lectures 0 []).1 hex]
    simp [selectedFiles]
  · intro hnex
    unfold calcPackage
    rw [(calcLectures_spec db pack.lectures 0 []).2 hnex]

/-- Witness for C3: one store where all units exist (a 2 KiB selected file, a
markdown unit and a kata unit contributing nothing) and one store missing the
referenced unit. -/
theorem calcPackage_spec_witness :
    UnitsExist smallDlDB smallData ∧
    calcPackage smallDlDB smallData =
      .ok ⟨selSizes (selectedFiles smallDlDB smallData),
           largeOf (selectedFiles smallDlDB smallData)⟩ ∧
    ¬ UnitsExist ⟨[], [], [], []⟩ sampleData ∧
    calcPackage ⟨[], [], [], []⟩ sampleData = .error .notFound :=
  ⟨by decide,
   (calcPackage_spec smallDlDB smallData).1 (by decide),
   by decide,
   (calcPackage_spec ⟨[], [], [], []⟩ sampleData).2 (by decide)⟩

/-- `userCanExportCourse` holds exactly for admins, the course admin, enrolled
students and teachers. -/
theorem userCanExportCourse_iff (course : CourseDoc) (user : IUserM) :
    userCanExportCourse course user = true ↔
      (user.role = "admin" ∨ user.id = course.courseAdmin ∨
       user.id ∈ course.students ∨ user.id ∈ course.teachers) := by
  simp [userCanExportCourse, or_assoc]

/-- The attachment loop of the individual endpoint never produces
`ForbiddenError`. -/
theorem indivFileEffects_err (db : DB) (lc : Nat) (lcn : String) (uc : Nat) :
    ∀ fids, (indivFileEffects db lc lcn uc fids).2 ≠ some .forbidden := by
  intro fids
  induction fids with
  | nil => simp [indivFileEffects]
  | cons fid rest ih =>
    simp only [indivFileEffects]
    split
    · simp
    · simpa using ih

/-- The unit loop of the individual endpoint never produces
`ForbiddenError`. -/
theorem indivUnits_err (db : DB) (css : String) (lc : Nat) (lcn : String) :
    ∀ us uc, (indivUnits db css lc lcn uc us).2 ≠ some .forbidden := by
  intro us
  induction us with
  | nil => intro uc; simp [indivUnits]
  | cons u rest ih =>
    intro uc
    simp only [indivUnits]
    split
    · simp
    · split
      · rename_i e heq
        intro hcon
        simp only [Option.some.injEq] at hcon
        subst hcon
        split at heq
        · exact indivFileEffects_err db lc lcn uc u.files heq
        · simp at heq
      · exact ih (uc + 1)

/-- The lecture loop of the individual endpoint never produces
`ForbiddenError`. -/
theorem indivLectures_err (db : DB) (css : String) :
    ∀ lecs n, (indivLectures db css n lecs).2 ≠ some .forbidden := by
  intro lecs
  induction lecs with
  | nil => intro n; simp [indivLectures]
  | cons lec rest ih =>
    intro n
    simp only [indivLectures]
    split
    · simp
    · split
      · rename_i e heq
        intro hcon
        simp only [Option.some.injEq] at hcon
        subst hcon
        exact indivUnits_err db css n _ lec.units 1 heq
      · exact ih (n + 1)

/-- The attachment loop of the single endpoint never produces
`ForbiddenError`. -/
theorem singleFileEffects_err (db : DB) (uf : AbsPath) (lc : Nat) (lcn : String) (uc : Nat) :
    ∀ fids, (singleFileEffects db uf lc lcn uc fids).2 ≠ some .forbidden := by
  intro fids
  induction fids with
  | nil => simp [singleFileEffects]
  | cons fid rest ih =>
    simp only [singleFileEffects]
    split
    · simp
    · simpa using ih

/-- The unit loop of the single endpoint never produces `ForbiddenError`. -/
theorem singleUnits_err (db : DB) (uf : AbsPath) (nm lcn : String) (lcount : Nat) :
    ∀ us uc sc acc, (singleUnits db uf nm lcn lcount uc sc acc us).2 ≠ some .forbidden := by
  intro us
  induction us with
  | nil => intro uc sc acc; simp [singleUnits]
  | cons u rest ih =>
    intro uc sc acc
    simp only [singleUnits]
    split
    · simp
    · split
      · split
        · rename_i e heq
          intro hcon
          simp only [Option.some.injEq] at hcon
          subst hcon
          exact singleFileEffects_err db uf lcount lcn uc u.files heq
        · exact ih (uc + 1) _ _
      · exact ih (uc + 1) _ _

/-- The lecture loop of the single endpoint never produces `ForbiddenError`. -/
theorem singleLectures_err (db : DB) (uf : AbsPath) :
    ∀ lecs n acc, (singleLectures db uf n acc lecs).2 ≠ some .forbidden := by
  intro lecs
  induction lecs with
  | nil => intro n acc; simp [singleLectures]
  | cons lec rest ih =>
    intro n acc
    simp only [singleLectures]
    split
    · simp
    · split
      · rename_i e heq
        intro hcon
        simp only [Option.some.injEq] at hcon
        subst hcon
        exact singleUnits_err db uf _ _ n lec.units 1 1 _ heq
      · exact ih (n + 1) _

/-- An authorised user never receives `ForbiddenError` from
`pdfIndividual`. -/
theorem pdfIndividual_auth_ok (folder : AbsPath) (db : DB) (user : IUserM) (data : IDownload)
    (hash css : String)
    (hauth : ∀ course, lookupKey data.courseName db.courses = some course →
      userCanExportCourse course user = true) :
    (pdfIndividual folder db user data hash css).result ≠ .error .forbidden := by
  simp only [pdfIndividual]
  split
  · simp
  · split
    · simp
    · rename_i course heq
      split
      · rename_i hno
        exact absurd (hauth course heq) (by simp [hno])
      · split
        · rename_i e heq2
          intro hcon
          simp only [Except.error.injEq] at hcon
          subst hcon
          by_cases hex : UnitsExist db data
          · rw [(calcPackage_spec db data).1 hex] at heq2
            simp at heq2
          · rw [(calcPackage_spec db data).2 hex] at heq2
            simp at heq2
        · split
          · simp
          · split
            · rename_i e heq3
              intro hcon
              simp only [Except.error.injEq] at hcon
              subst hcon
              exact indivLectures_err db css data.lectures 1 heq3
            · simp

/-- An authorised user never receives `ForbiddenError` from `pdfSingle`. -/
theorem pdfSingle_auth_ok (folder uploadFolder : AbsPath) (db : DB) (user : IUserM)
    (data : IDownload) (hash css : String)
    (hauth : ∀ course, lookupKey data.courseName db.courses = some course →
      userCanExportCourse course user = true) :
    (pdfSingle folder uploadFolder db user data hash css).result ≠ .error .forbidden := by
  simp only [pdfSingle]
  split
  · simp
  · split
    · simp
    · rename_i course heq
      split
      · rename_i hno
        exact absurd (hauth course heq) (by simp [hno])
      · split
        · rename_i e heq2
          intro hcon
          simp only [Except.error.injEq] at hcon
          subst hcon
          by_cases hex : UnitsExist db data
          · rw [(calcPackage_spec db data).1 hex] at heq2
            simp at heq2
          · rw [(calcPackage_spec db data).2 hex] at heq2
            simp at heq2
        · split
          · simp
          · split
            · rename_i e heq3
              intro hcon
              simp only [Except.error.injEq] at hcon
              subst hcon
              exact singleLectures_err db uploadFolder data.lectures 1 _ heq3
            · simp

/-- C8: for an existing course (and a nonempty request body, which otherwise
fails earlier with `BadRequestError`), both export endpoints throw
`ForbiddenError` exactly when the user is neither an admin nor the course
admin nor a student nor a teacher of the course; and in that case nothing is
written. -/
theorem export_auth
    (folder uploadFolder : AbsPath) (db : DB) (user : IUserM) (data : IDownload)
    (hash css : String) (course : CourseDoc)
    (hlen : data.lectures ≠ [])
    (hc : lookupKey data.courseName db.courses = some course) :
    ((pdfIndividual folder db user data hash css).result = .error .forbidden ↔
      ¬ (user.role = "admin" ∨ user.id = course.courseAdmin ∨
         user.id ∈ course.students ∨ user.id ∈ course.teachers)) ∧
    ((pdfSingle folder uploadFolder db user data hash css).result = .error .forbidden ↔
      ¬ (user.role = "admin" ∨ user.id = course.courseAdmin ∨
         user.id ∈ course.students ∨ user.id ∈ course.teachers)) ∧
    (¬ (user.role = "admin" ∨ user.id = course.courseAdmin ∨
        user.id ∈ course.students ∨ user.id ∈ course.teachers) →
      pdfIndividual folder db user data hash css = ⟨[], .error .forbidden⟩ ∧
      pdfSingle folder uploadFolder db user data hash css = ⟨[], .error .forbidden⟩) := by
  have hlen0 : ¬ data.lectures.length = 0 := by
    simpa [List.length_eq_zero] using hlen
  have hforb : ¬ (user.role = "admin" ∨ user.id = course.courseAdmin ∨
      user.id ∈ course.students ∨ user.id ∈ course.teachers) →
      pdfIndividual folder db user data hash css = ⟨[], .error .forbidden⟩ ∧
      pdfSingle folder uploadFolder db user data hash css = ⟨[], .error .forbidden⟩ := by
    intro hno
    have hauth2 : userCanExportCourse course user = false := by
      cases h2 : userCanExportCourse course user
      · rfl
      · exact absurd ((userCanExportCourse_iff course user).mp h2) hno
    exact ⟨by simp [pdfIndividual, hlen0, hc, hauth2],
           by simp [pdfSingle, hlen0, hc, hauth2]⟩
  have hok : ∀ course2, lookupKey data.courseName db.courses = some course2 →
      (user.role = "admin" ∨ user.id = course.courseAdmin ∨
        user.id ∈ course.students ∨ user.id ∈ course.teachers) →
      userCanExportCourse course2 user = true := by
    intro course2 hc2 hyes
    rw [hc] at hc2
    injection hc2 with hc3
    rw [← hc3]
    exact (userCanExportCourse_iff course user).mpr hyes
  refine ⟨⟨?_, fun hno => by rw [(hforb hno).1]⟩, ⟨?_, fun hno => by rw [(hforb hno).2]⟩,
    hforb⟩
  · intro hres hyes
    exact pdfIndividual_auth_ok folder db user data hash css
      (fun c2 h2 => hok c2 h2 hyes) hres
  · intro hres hyes
    exact pdfSingle_auth_ok folder uploadFolder db user data hash css
      (fun c2 h2 => hok c2 h2 hyes) hres

/-- Witness for C8: the sample course, an enrolled viewer is not among
students/teachers/admin, a student is. -/
theorem export_auth_witness :
    sampleData.lectures ≠ [] ∧
    lookupKey sampleData.courseName sampleDlDB.courses = some sampleCourse ∧
    ¬ (IUserM.role ⟨"mallory", "student"⟩ = "admin" ∨
       IUserM.id ⟨"mallory", "student"⟩ = sampleCourse.courseAdmin ∨
       IUserM.id ⟨"mallory", "student"⟩ ∈ sampleCourse.students ∨
       IUserM.id ⟨"mallory", "student"⟩ ∈ sampleCourse.teachers) ∧
    pdfIndividual [] sampleDlDB ⟨"mallory", "student"⟩ sampleData "h" "" =
      ⟨[], .error .forbidden⟩ ∧
    pdfSingle [] [] sampleDlDB ⟨"mallory", "student"⟩ sampleData "h" "" =
      ⟨[], .error .forbidden⟩ :=
  ⟨by decide, by decide, by decide,
   ((export_auth [] [] sampleDlDB ⟨"mallory", "student"⟩ sampleData "h" "" sampleCourse
      (by decide) (by decide)).2.2 (by decide)).1,
   ((export_auth [] [] sampleDlDB ⟨"mallory", "student"⟩ sampleData "h" "" sampleCourse
      (by decide) (by decide)).2.2 (by decide)).2⟩

/-- Closed form of the attachment loop of the individual endpoint when every
referenced file document exists. -/
theorem indivFileEffects_spec (db : DB) (lc : Nat) (lcn : String) (uc : Nat) :
    ∀ fids, (∀ fid ∈ fids, (lookupKey fid db.files).isSome = true) →
    indivFileEffects db lc lcn uc fids =
      (fids.map fun fid => Effect.addFile ("uploads/" ++ (lookupFileD db fid).link)
        (fileEntryName lc lcn uc (lookupFileD db fid).name), none) := by
  intro fids
  induction fids with
  | nil => intro _; simp [indivFileEffects]
  | cons fid rest ih =>
    intro hall
    cases hf : lookupKey fid db.files with
    | none =>
      have := hall fid (by simp)
      rw [hf] at this
      simp at this
    | some f =>
      have hrest := ih fun x hx => hall x (by simp [hx])
      simp [indivFileEffects, hf, hrest, lookupFileD]

/-- Closed form of the unit loop of the individual endpoint when every
referenced unit and file exists. -/
theorem indivUnits_spec (db : DB) (css : String) (lc : Nat) (lcn : String) :
    ∀ us uc, (∀ u ∈ us, unitRefOk db u = true) →
    indivUnits db css lc lcn uc us =
      (((enumFrom uc us).map (indivUnitSpec db css lc lcn)).flatten, none) := by
  intro us
  induction us with
  | nil => intro uc _; simp [indivUnits, enumFrom]
  | cons u rest ih =>
    intro uc hall
    have hu := hall u (by simp)
    have hrest : ∀ v ∈ rest, unitRefOk db v = true := fun v hv => hall v (by simp [hv])
    cases hlu : lookupKey u.unitId db.units with
    | none =>
      simp only [unitRefOk, hlu] at hu
      simp at hu
    | some lu =>
      simp only [unitRefOk, hlu] at hu
      have hud : lookupUnitD db u = lu := by simp [lookupUnitD, hlu]
      by_cases ht : (lu.t == "file") = true
      · rw [if_pos ht] at hu
        have hfe := indivFileEffects_spec db lc lcn uc u.files (by
          intro fid hfid
          have := List.all_eq_true.mp hu fid hfid
          simpa using this)
        rw [show indivUnits db css lc lcn uc (u :: rest) =
            (match (indivFileEffects db lc lcn uc u.files).2 with
             | some e => ((indivFileEffects db lc lcn uc u.files).1, some e)
             | none =>
               ((indivFileEffects db lc lcn uc u.files).1 ++
                  (indivUnits db css lc lcn (uc + 1) rest).1,
                (indivUnits db css lc lcn (uc + 1) rest).2)) from by
          simp [indivUnits, hlu, ht], hfe, ih (uc + 1) hrest]
        simp [enumFrom, indivUnitSpec, hud, ht]
      · rw [show indivUnits db css lc lcn uc (u :: rest) =
            ([Effect.appendPdf (indivHtmlHead css ++ lu.htmlIndividual ++ "</html>")
                (pdfEntryName lc lcn uc lu.name)] ++
              (indivUnits db css lc lcn (uc + 1) rest).1,
             (indivUnits db css lc lcn (uc + 1) rest).2) from by
          simp [indivUnits, hlu, ht], ih (uc + 1) hrest]
        simp [enumFrom, indivUnitSpec, hud, ht]

/-- Closed form of the lecture loop of the individual endpoint when every
reference resolves. -/
theorem indivLectures_spec (db : DB) (css : String) :
    ∀ lecs n, RefsOk db lecs = true →
    indivLectures db css n lecs =
      (((enumFrom n lecs).map fun q =>
        ((enumFrom 1 q.2.units).map (indivUnitSpec db css q.1
          (replaceCharInFilename (lectureNameD db q.2)))).flatten).flatten, none) := by
  intro lecs
  induction lecs with
  | nil => intro n _; simp [indivLectures, enumFrom]
  | cons lec rest ih =>
    intro n hok
    have hlec : lecRefOk db lec = true := by
      have := List.all_eq_true.mp hok lec (by simp)
      simpa using this
    have hrest : RefsOk db rest = true := by
      refine List.all_eq_true.mpr fun l2 h2 => ?_
      have := List.all_eq_true.mp hok l2 (by simp [h2])
      simpa using this
    rw [lecRefOk, Bool.and_eq_true] at hlec
    cases hld : lookupKey lec.lectureId db.lectures with
    | none =>
      rw [hld] at hlec
      simp at hlec
    | some ld =>
      have hldn : lectureNameD db lec = ld.name := by simp [lectureNameD, hld]
      have hus := indivUnits_spec db css n (replaceCharInFilename ld.name) lec.units 1 (by
        intro u hu
        exact List.all_eq_true.mp hlec.2 u hu)
      rw [show indivLectures db css n (lec :: rest) =
          (match (indivUnits db css n (replaceCharInFilename ld.name) 1 lec.units).2 with
           | some e => ((indivUnits db css n (replaceCharInFilename ld.name) 1 lec.units).1, some e)
           | none =>
             ((indivUnits db css n (replaceCharInFilename ld.name) 1 lec.units).1 ++
                (indivLectures db css (n + 1) rest).1,
              (indivLectures db css (n + 1) rest).2)) from by
        simp [indivLectures, hld], hus, ih (n + 1) hrest]
      simp [enumFrom, hldn]

/-- Evaluation of `calcPackage` on the small sample store. -/
theorem calcPackage_small_eval :
    calcPackage smallDlDB smallData = .ok ⟨2, []⟩ := by
  have h1 : ¬ (maxFileSize < (2048 : ℚ) / 1024) := by norm_num [maxFileSize]
  simp [calcPackage, calcLectures, calcUnits, calcFiles, smallDlDB, smallData,
    smallFileUnit, sampleMdUnit, sampleKataUnit, smallFile, lookupKey, h1]
  norm_num

/-- C6: on a request that passes validation, authorisation and the size
check, `pdfIndividual` opens the output stream and produces, in request
order, for every file unit its selected attachments unrendered under
`<lectureCounter>_<sanitizedLectureName>/<unitCounter>_<fileName>`, and for
every other unit one PDF rendered from its html under
`<lectureCounter>_<sanitizedLectureName>/<unitCounter>_<sanitizedUnitName>.pdf`,
with both counters starting at 1. -/
theorem pdfIndividual_entries
    (folder : AbsPath) (db : DB) (user : IUserM) (data : IDownload)
    (hash css : String) (course : CourseDoc) (s : PackResult)
    (hlen : data.lectures ≠ [])
    (hc : lookupKey data.courseName db.courses = some course)
    (hauth : userCanExportCourse course user = true)
    (hs : calcPackage db data = .ok s)
    (hsize : ¬ (maxZipSize < s.totalSize ∨ s.tooLargeFiles ≠ []))
    (hok : RefsOk db data.lectures = true) :
    pdfIndividual folder db user data hash css =
      ⟨Effect.createStream (dlPath folder hash) :: indivSpecEffects db css data.lectures,
        .ok hash⟩ := by
  have hlen0 : ¬ data.lectures.length = 0 := by
    simpa [List.length_eq_zero] using hlen
  have hl := indivLectures_spec db css data.lectures 1 hok
  simp [pdfIndividual, hlen0, hc, hauth, hs, hsize, hl, indivSpecEffects]

/-- Witness for C6: the small store with one file unit (one attachment), one
markdown unit and one kata unit in a single lecture, exported by an admin. -/
theorem pdfIndividual_entries_witness :
    smallData.lectures ≠ [] ∧
    lookupKey smallData.courseName smallDlDB.courses = some sampleCourse ∧
    userCanExportCourse sampleCourse adminUser = true ∧
    calcPackage smallDlDB smallData = .ok ⟨2, []⟩ ∧
    ¬ (maxZipSize < (Lms.PackResult.mk 2 []).totalSize ∨
       (Lms.PackResult.mk 2 []).tooLargeFiles ≠ []) ∧
    RefsOk smallDlDB smallData.lectures = true ∧
    pdfIndividual [] smallDlDB adminUser smallData "h" "" =
      ⟨Effect.createStream (dlPath [] "h") :: indivSpecEffects smallDlDB "" smallData.lectures,
        .ok "h"⟩ :=
  ⟨by decide, by decide, by decide, calcPackage_small_eval,
   by norm_num [maxZipSize], by decide,
   pdfIndividual_entries [] smallDlDB adminUser smallData "h" "" sampleCourse ⟨2, []⟩
     (by decide) (by decide) (by decide) calcPackage_small_eval
     (by norm_num [maxZipSize]) (by decide)⟩

/-- The attachment loop of the single endpoint succeeds when every referenced
file document exists. -/
theorem singleFileEffects_ok (db : DB) (uf : AbsPath) (lc : Nat) (lcn : String) (uc : Nat) :
    ∀ fids, (∀ fid ∈ fids, (lookupKey fid db.files).isSome = true) →
    (singleFileEffects db uf lc lcn uc fids).2 = none := by
  intro fids
  induction fids with
  | nil => intro _; rfl
  | cons fid rest ih =>
    intro hall
    cases hf : lookupKey fid db.files with
    | none =>
      have := hall fid (by simp)
      rw [hf] at this
      simp at this
    | some f =>
      simp [singleFileEffects, hf, ih fun x hx => hall x (by simp [hx])]

/-- Behaviour of the unit loop of the single endpoint on resolvable
references: it succeeds, appends exactly the declarative per-unit solutions
contributions to the solutions accumulator (with `solCounter = k + 1` and the
`firstSol` invariant), updates `firstSol` by the number of code-kata/task
units seen, and only appends to the body html. -/
theorem singleUnits_sol (db : DB) (uf : AbsPath) (nm lcn : String) (lcount : Nat) :
    ∀ us uc k fb acc,
    (∀ u ∈ us, unitRefOk db u = true) →
    acc.firstSol = (fb || decide (0 < k)) →
    (singleUnits db uf nm lcn lcount uc (k + 1) acc us).2 = none ∧
    ((singleUnits db uf nm lcn lcount uc (k + 1) acc us).1).solutions =
      acc.solutions ++ unitsSolContrib db nm fb k us ∧
    ((singleUnits db uf nm lcn lcount uc (k + 1) acc us).1).firstSol =
      (fb || decide (0 < k + countSolUnits db us)) ∧
    ∃ hb, ((singleUnits db uf nm lcn lcount uc (k + 1) acc us).1).html = acc.html ++ hb := by
  intro us
  induction us with
  | nil =>
    intro uc k fb acc _ hfs
    refine ⟨rfl, by simp [singleUnits, unitsSolContrib], ?_, ⟨"", by simp [singleUnits]⟩⟩
    simpa [singleUnits, countSolUnits] using hfs
  | cons u rest ih =>
    intro uc k fb acc hex hfs
    have hu := hex u (by simp)
    have hrest : ∀ v ∈ rest, unitRefOk db v = true := fun v hv => hex v (by simp [hv])
    cases hlu : lookupKey u.unitId db.units with
    | none =>
      simp only [unitRefOk, hlu] at hu
      exact Bool.noConfusion hu
    | some lu =>
      simp only [unitRefOk, hlu] at hu
      have hud : lookupUnitD db u = lu := by simp [lookupUnitD, hlu]
      by_cases ht : (lu.t == "file") = true
      · -- file unit: no solutions contribution, counters of the spec unchanged
        have htt : lu.t = "file" := by simpa using ht
        have hsol : isSolutionUnit lu = false := by simp [isSolutionUnit, htt]
        rw [if_pos ht] at hu
        have hfe : (singleFileEffects db uf lcount lcn uc u.files).2 = none :=
          singleFileEffects_ok db uf lcount lcn uc u.files (by
            intro fid hfid
            simpa using List.all_eq_true.mp hu fid hfid)
        rw [show singleUnits db uf nm lcn lcount uc (k + 1) acc (u :: rest) =
            (match (singleFileEffects db uf lcount lcn uc u.files).2 with
             | some e => (⟨acc.effects ++ (singleFileEffects db uf lcount lcn uc u.files).1,
                 acc.html, acc.solutions, acc.firstSol⟩, some e)
             | none => singleUnits db uf nm lcn lcount (uc + 1) (k + 1)
                 ⟨acc.effects ++ (singleFileEffects db uf lcount lcn uc u.files).1,
                  acc.html, acc.solutions, acc.firstSol⟩ rest) from by
          simp [singleUnits, hlu, ht], hfe]
        obtain ⟨h1, h2, h3, hb, h4⟩ := ih (uc + 1) k fb
          ⟨acc.effects ++ (singleFileEffects db uf lcount lcn uc u.files).1,
           acc.html, acc.solutions, acc.firstSol⟩ hrest (by simpa using hfs)
        refine ⟨h1, ?_, ?_, ⟨hb, by rw [h4]⟩⟩
        · rw [h2]
          simp [unitsSolContrib, hud, hsol, unitSolContrib, htt]
        · rw [h3]
          simp [countSolUnits, List.countP_cons, hud, hsol]
      · -- rendered unit
        have htt : (lu.t == "file") = false := by simpa using ht
        by_cases hsol : isSolutionUnit lu = true
        · -- code-kata / task: grouped solutions block
          have hF : (if acc.firstSol = false && (k + 1) == 1 then true else acc.firstSol) =
              (fb || decide (0 < k + 1)) := by
            cases k with
            | zero => cases fb <;> simp_all
            | succ k2 => simp_all
          have hS : (acc.solutions ++
              (if acc.firstSol = false && (k + 1) == 1 then
                "<div><h2>Lecture: " ++ nm ++ "</h2>"
               else if (k + 1) == 1 then
                "<div id=\"nextPage\" ><h2>Lecture: " ++ nm ++ "</h2>"
               else
                "<div id=\"nextPage\" >") ++ lu.htmlSolutions ++ "</div>") =
              acc.solutions ++ unitSolContrib nm fb k lu := by
            cases k with
            | zero => cases fb <;> simp_all [unitSolContrib, String.append_assoc]
            | succ k2 => simp_all [unitSolContrib, String.append_assoc]
          rw [show singleUnits db uf nm lcn lcount uc (k + 1) acc (u :: rest) =
              singleUnits db uf nm lcn lcount (uc + 1) (k + 1 + 1)
                ⟨acc.effects,
                 (if isSolutionUnit lu && decide (1 < lcount) && decide (1 < uc) then
                    acc.html ++ "<div id=\"nextPage\" >" ++ lu.htmlSingle ++ "</div>"
                  else acc.html ++ lu.htmlSingle),
                 (acc.solutions ++
                   (if acc.firstSol = false && (k + 1) == 1 then
                     "<div><h2>Lecture: " ++ nm ++ "</h2>"
                    else if (k + 1) == 1 then
                     "<div id=\"nextPage\" ><h2>Lecture: " ++ nm ++ "</h2>"
                    else
                     "<div id=\"nextPage\" >") ++ lu.htmlSolutions ++ "</div>"),
                 (if acc.firstSol = false && (k + 1) == 1 then true else acc.firstSol)⟩ rest from by
            simp [singleUnits, hlu, htt, hsol]]
          obtain ⟨h1, h2, h3, hb, h4⟩ := ih (uc + 1) (k + 1) fb
            ⟨acc.effects,
             (if isSolutionUnit lu && decide (1 < lcount) && decide (1 < uc) then
                acc.html ++ "<div id=\"nextPage\" >" ++ lu.htmlSingle ++ "</div>"
              else acc.html ++ lu.htmlSingle),
             (acc.solutions ++
               (if acc.firstSol = false && (k + 1) == 1 then
                 "<div><h2>Lecture: " ++ nm ++ "</h2>"
                else if (k + 1) == 1 then
                 "<div id=\"nextPage\" ><h2>Lecture: " ++ nm ++ "</h2>"
                else
                 "<div id=\"nextPage\" >") ++ lu.htmlSolutions ++ "</div>"),
             (if acc.firstSol = false && (k + 1) == 1 then true else acc.firstSol)⟩ hrest hF
          refine ⟨h1, ?_, ?_, ?_⟩
          · rw [h2]
            dsimp only
            rw [hS]
            simp [unitsSolContrib, hud, hsol, String.append_assoc]
          · rw [h3]
            have harith : k + 1 + countSolUnits db rest = k + countSolUnits db (u :: rest) := by
              simp [countSolUnits, List.countP_cons, hud, hsol]
              omega
            rw [harith]
          · refine ⟨(if isSolutionUnit lu && decide (1 < lcount) && decide (1 < uc) then
                "<div id=\"nextPage\" >" ++ lu.htmlSingle ++ "</div>"
              else lu.htmlSingle) ++ hb, ?_⟩
            rw [h4]
            dsimp only
            by_cases hcond : (isSolutionUnit lu && decide (1 < lcount) && decide (1 < uc)) = true <;>
              simp [hcond, String.append_assoc]
        · -- other rendered unit: bare solutions html, counters unchanged
          have hsolf : isSolutionUnit lu = false := by simpa using hsol
          rw [show singleUnits db uf nm lcn lcount uc (k + 1) acc (u :: rest) =
              singleUnits db uf nm lcn lcount (uc + 1) (k + 1)
                ⟨acc.effects, acc.html ++ lu.htmlSingle,
                 acc.solutions ++ lu.htmlSolutions, acc.firstSol⟩ rest from by
            simp [singleUnits, hlu, htt, hsolf]]
          obtain ⟨h1, h2, h3, hb, h4⟩ := ih (uc + 1) k fb
            ⟨acc.effects, acc.html ++ lu.htmlSingle,
             acc.solutions ++ lu.htmlSolutions, acc.firstSol⟩ hrest hfs
          refine ⟨h1, ?_, ?_, ⟨lu.htmlSingle ++ hb, by rw [h4]; simp [String.append_assoc]⟩⟩
          · rw [h2]
            have hcontrib : unitSolContrib nm fb k lu = lu.htmlSolutions := by
              simp [unitSolContrib, hsolf, htt]
            simp [unitsSolContrib, hud, hsolf, hcontrib, String.append_assoc]
          · rw [h3]
            simp [countSolUnits, List.countP_cons, hud, hsolf]

/-- A positive code-kata/task count is the same as having one. -/
theorem countSol_pos_iff_any (db : DB) (us : List UnitRef) :
    decide (0 < countSolUnits db us) = us.any fun u => isSolutionUnit (lookupUnitD db u) := by
  cases hany : us.any fun u => isSolutionUnit (lookupUnitD db u) with
  | true =>
    rcases List.any_eq_true.mp hany with ⟨a, ha, hpa⟩
    have hpos : 0 < countSolUnits db us := by
      rw [countSolUnits]
      exact List.countP_pos_iff.mpr ⟨a, ha, hpa⟩
    simp [hpos]
  | false =>
    have hz : countSolUnits db us = 0 := by
      rw [countSolUnits]
      refine List.countP_eq_zero.mpr fun a ha => ?_
      have := List.any_eq_false.mp hany
      simpa using this a ha
    simp [hz]

/-- Behaviour of the lecture loop of the single endpoint on resolvable
references: it succeeds, appends the declarative lecture-by-lecture solutions
contributions, tracks `firstSol`, and only appends to the body html. -/
theorem singleLectures_sol (db : DB) (uf : AbsPath) :
    ∀ lecs n fb acc, RefsOk db lecs = true → acc.firstSol = fb →
    (singleLectures db uf n acc lecs).2 = none ∧
    ((singleLectures db uf n acc lecs).1).solutions =
      acc.solutions ++ lecturesSolContrib db fb lecs ∧
    ((singleLectures db uf n acc lecs).1).firstSol = (fb || lecs.any (lecHasSolUnit db)) ∧
    ∃ hb, ((singleLectures db uf n acc lecs).1).html = acc.html ++ hb := by
  intro lecs
  induction lecs with
  | nil =>
    intro n fb acc _ hfs
    exact ⟨rfl, by simp [singleLectures, lecturesSolContrib],
      by simpa [singleLectures] using hfs, ⟨"", by simp [singleLectures]⟩⟩
  | cons lec rest ih =>
    intro n fb acc hok hfs
    have hlec : lecRefOk db lec = true := by
      have := List.all_eq_true.mp hok lec (by simp)
      simpa using this
    have hrest : RefsOk db rest = true := by
      refine List.all_eq_true.mpr fun l2 h2 => ?_
      have := List.all_eq_true.mp hok l2 (by simp [h2])
      simpa using this
    rw [lecRefOk, Bool.and_eq_true] at hlec
    rcases hlec with ⟨hlec1, hlec2⟩
    simp only [singleLectures]
    split
    · rename_i heq
      rw [heq] at hlec1
      exact absurd hlec1 (by simp)
    · rename_i ld heq
      have hldn : lectureNameD db lec = ld.name := by simp [lectureNameD, heq]
      obtain ⟨h1, h2, h3, hb, h4⟩ := singleUnits_sol db uf ld.name
        (replaceCharInFilename ld.name) n lec.units 1 0 fb
        ⟨acc.effects,
         acc.html ++
           (if 1 < n then "<div id=\"nextPage\" ><h2>Lecture: " ++ ld.name ++ "</h2>"
            else "<div><h2>Lecture: " ++ ld.name ++ "</h2>"),
         acc.solutions, acc.firstSol⟩
        (fun u hu => List.all_eq_true.mp hlec2 u hu) (by simp [hfs])
      simp only [Nat.zero_add] at h1 h2 h3 h4
      split
      · rename_i e heq2
        rw [h1] at heq2
        exact absurd heq2 (by simp)
      · obtain ⟨g1, g2, g3, hb2, g4⟩ := ih (n + 1) (fb || lecHasSolUnit db lec)
          ⟨(singleUnits db uf ld.name (replaceCharInFilename ld.name) n 1 1
              ⟨acc.effects,
               acc.html ++
                 (if 1 < n then "<div id=\"nextPage\" ><h2>Lecture: " ++ ld.name ++ "</h2>"
                  else "<div><h2>Lecture: " ++ ld.name ++ "</h2>"),
               acc.solutions, acc.firstSol⟩ lec.units).1.effects,
           (singleUnits db uf ld.name (replaceCharInFilename ld.name) n 1 1
              ⟨acc.effects,
               acc.html ++
                 (if 1 < n then "<div id=\"nextPage\" ><h2>Lecture: " ++ ld.name ++ "</h2>"
                  else "<div><h2>Lecture: " ++ ld.name ++ "</h2>"),
               acc.solutions, acc.firstSol⟩ lec.units).1.html ++ "</div>",
           (singleUnits db uf ld.name (replaceCharInFilename ld.name) n 1 1
              ⟨acc.effects,
               acc.html ++
                 (if 1 < n then "<div id=\"nextPage\" ><h2>Lecture: " ++ ld.name ++ "</h2>"
                  else "<div><h2>Lecture: " ++ ld.name ++ "</h2>"),
               acc.solutions, acc.firstSol⟩ lec.units).1.solutions,
           (singleUnits db uf ld.name (replaceCharInFilename ld.name) n 1 1
              ⟨acc.effects,
               acc.html ++
                 (if 1 < n then "<div id=\"nextPage\" ><h2>Lecture: " ++ ld.name ++ "</h2>"
                  else "<div><h2>Lecture: " ++ ld.name ++ "</h2>"),
               acc.solutions, acc.firstSol⟩ lec.units).1.firstSol⟩ hrest
          (by
            dsimp only
            rw [h3, countSol_pos_iff_any]
            rfl)
        refine ⟨g1, ?_, ?_, ?_⟩
        · rw [g2]
          dsimp only
          rw [h2]
          simp [lecturesSolContrib, hldn, String.append_assoc]
        · rw [g3]
          simp [lecHasSolUnit, Bool.or_assoc]
        · refine ⟨((if 1 < n then "<div id=\"nextPage\" ><h2>Lecture: " ++ ld.name ++ "</h2>"
              else "<div><h2>Lecture: " ++ ld.name ++ "</h2>") ++ hb ++ "</div>") ++ hb2, ?_⟩
          rw [g4]
          dsimp only
          rw [h4]
          simp [String.append_assoc]

/-- C7: on a request that passes validation, authorisation and the size
check, `pdfSingle` produces one PDF whose html is the head, then the body
rendered from all lectures in request order, then a single solutions section
appended after all lecture content: the `Solutions` heading followed by, per
lecture in request order, the solutions of its code-kata/task units grouped
under the lecture's heading (file units contributing nothing to the
section). -/
theorem pdfSingle_solutions
    (folder uploadFolder : AbsPath) (db : DB) (user : IUserM) (data : IDownload)
    (hash css : String) (course : CourseDoc) (s : PackResult)
    (hlen : data.lectures ≠ [])
    (hc : lookupKey data.courseName db.courses = some course)
    (hauth : userCanExportCourse course user = true)
    (hs : calcPackage db data = .ok s)
    (hsize : ¬ (maxZipSize < s.totalSize ∨ s.tooLargeFiles ≠ []))
    (hok : RefsOk db data.lectures = true) :
    ∃ body fileEffects,
      pdfSingle folder uploadFolder db user data hash css =
        ⟨Effect.createStream (dlPath folder hash) ::
            (fileEffects ++
              [Effect.appendPdf
                (singleHtmlHead css ++ body ++
                  (solutionsHead ++ lecturesSolContrib db false data.lectures) ++
                  "</div></body></html>")
                (replaceCharInFilename course.name ++ ".pdf")]),
          .ok hash⟩ := by
  have hlen0 : ¬ data.lectures.length = 0 := by
    simpa [List.length_eq_zero] using hlen
  obtain ⟨h1, h2, h3, hb, h4⟩ := singleLectures_sol db uploadFolder data.lectures 1 false
    ⟨[Effect.createStream (dlPath folder hash)], singleHtmlHead css, solutionsHead, false⟩
    hok rfl
  obtain ⟨t, ht⟩ := singleLectures_effects_mono db uploadFolder data.lectures 1
    ⟨[Effect.createStream (dlPath folder hash)], singleHtmlHead css, solutionsHead, false⟩
  refine ⟨hb, t, ?_⟩
  simp [pdfSingle, hlen0, hc, hauth, hs, hsize, h1, ht, h4, h2, String.append_assoc]

/-- Witness for C7: the small store (file unit, markdown unit, kata unit in
one lecture) exported by an admin. -/
theorem pdfSingle_solutions_witness :
    smallData.lectures ≠ [] ∧
    lookupKey smallData.courseName smallDlDB.courses = some sampleCourse ∧
    userCanExportCourse sampleCourse adminUser = true ∧
    calcPackage smallDlDB smallData = .ok ⟨2, []⟩ ∧
    ¬ (maxZipSize < (Lms.PackResult.mk 2 []).totalSize ∨
       (Lms.PackResult.mk 2 []).tooLargeFiles ≠ []) ∧
    RefsOk smallDlDB smallData.lectures = true ∧
    ∃ body fileEffects,
      pdfSingle [] [] smallDlDB adminUser smallData "h" "" =
        ⟨Effect.createStream (dlPath [] "h") ::
            (fileEffects ++
              [Effect.appendPdf
                (singleHtmlHead "" ++ body ++
                  (solutionsHead ++ lecturesSolContrib smallDlDB false smallData.lectures) ++
                  "</div></body></html>")
                (replaceCharInFilename sampleCourse.name ++ ".pdf")]),
          .ok "h"⟩ :=
  ⟨by decide, by decide, by decide, calcPackage_small_eval,
   by norm_num [maxZipSize], by decide,
   pdfSingle_solutions [] [] smallDlDB adminUser smallData "h" "" sampleCourse ⟨2, []⟩
     (by decide) (by decide) (by decide) calcPackage_small_eval
     (by norm_num [maxZipSize]) (by decide)⟩

end Lms
